import Mathlib

/-!
Verification of the `sudoku2-rs` solver core against its specification.

The Rust sources are shallowly embedded: machine integers become `Nat`
with explicit masking, bit sets become masked `Nat` values, the 81-cell
board becomes a `List Nat` of candidate bit sets, and the solver's loops
become fuel-indexed structural recursion.  Every definition follows the
corresponding Rust item (file and function named in its doc comment);
`debug_assert!`-only behaviour is modelled separately where a claim is
about it.
-/

namespace Sudoku2

/-! ## Value bit sets (`src/value.rs`, `ValueBitSet`)

A `ValueBitSet` is a `u16` whose bits `0..=8` encode the Sudoku values
`1..=9`.  We model the `u16` payload as a `Nat`; `u16` complement
(`!x` in Rust) is modelled as xor with `0xFFFF`, exact for payloads
below `2^16`.  All states reachable through the API stay below `2^9`
because every mutating operation masks with `MASK`. -/

/-- `ValueBitSet::MASK` = `0b111111111u16`. -/
def vbsMASK : Nat := 511

/-- Rust `!x` on `u16`, for `x < 2^16`. -/
def not16 (x : Nat) : Nat := 65535 ^^^ x

/-- `ValueBitSet::empty`. -/
def vbsEmpty : Nat := 0

/-- `ValueBitSet::with_value`: `state |= (1 << (value - 1)) & MASK`.
The value is a `Value`, i.e. an integer in `1..=9`. -/
def vbsWithValue (s v : Nat) : Nat := s ||| ((1 <<< (v - 1)) &&& vbsMASK)

/-- `ValueBitSet::all_values`: inserts each of `1..=9`. -/
def vbsAllValues : Nat := 511

/-- `ValueBitSet::without_value`: `state &= (!(1 << (value - 1))) & MASK`. -/
def vbsWithoutValue (s v : Nat) : Nat := s &&& (not16 (1 <<< (v - 1)) &&& vbsMASK)

/-- `ValueBitSet::remove_many`: `state &= (!values.state) & MASK`. -/
def vbsRemoveMany (s values : Nat) : Nat := s &&& (not16 values &&& vbsMASK)

/-- `ValueBitSet::contains`: `(state & (1 << (value - 1))) != 0`. -/
def vbsContains (s v : Nat) : Bool := (s &&& (1 <<< (v - 1))) != 0

/-- `ValueBitSet::is_exactly`: `(state & (1 << (value - 1))) == state`. -/
def vbsIsExactly (s v : Nat) : Bool := (s &&& (1 <<< (v - 1))) == s

/-- `ValueBitSet::contains_all`: `(state & values.state) == values.state`. -/
def vbsContainsAll (s values : Nat) : Bool := (s &&& values) == values

/-- `ValueBitSet::contains_some`: `(state & values.state) != 0`. -/
def vbsContainsSome (s values : Nat) : Bool := (s &&& values) != 0

/-- `ValueBitSet::len`: `(state & MASK).count_ones()`, i.e. the number of
set bits among bits `0..=8`. -/
def vbsLen (s : Nat) : Nat :=
  (List.range 9).countP (fun k => (s &&& vbsMASK).testBit k)

/-- `ValueBitSetIter` yields the encoded values in ascending order:
bit `k` (for `k < 9`) is reported as value `k + 1`. -/
def vbsCandidates (s : Nat) : List Nat :=
  ((List.range 9).filter (fun k => s.testBit k)).map (fun k => k + 1)

/-- `ValueBitSet::as_single_value`: `some v` exactly when the set encodes
the single value `v` (for masked states; the Rust version tests
`state == 1 << state.trailing_zeros()`). -/
def vbsAsSingleValue (s : Nat) : Option Nat :=
  match vbsCandidates s with
  | [v] => some v
  | _ => none

/-! ## Index bit sets (`src/index.rs`, `IndexBitSet`)

An `IndexBitSet` is a `u128` whose bits `0..81` encode cell indexes.
`u128` complement is xor with `2^128 - 1`. -/

/-- `IndexBitSet::MASK`: bits `0..81` set. -/
def ibsMASK : Nat := 2 ^ 81 - 1

/-- Rust `!x` on `u128`, for `x < 2^128`. -/
def not128 (x : Nat) : Nat := (2 ^ 128 - 1) ^^^ x

/-- `IndexBitSet::with_index` / `insert`: `state |= (1 << index) & MASK`. -/
def ibsInsert (b i : Nat) : Nat := b ||| ((1 <<< i) &&& ibsMASK)

/-- `IndexBitSet::remove`: `state &= (!(1 << index)) & MASK`. -/
def ibsRemove (b i : Nat) : Nat := b &&& (not128 (1 <<< i) &&& ibsMASK)

/-- `IndexBitSet::contains`: `(state & (1 << index)) != 0`. -/
def ibsContains (b i : Nat) : Bool := (b &&& (1 <<< i)) != 0

/-- `IndexBitSet::union`: `state |= other.state & MASK`. -/
def ibsUnion (b other : Nat) : Nat := b ||| (other &&& ibsMASK)

/-- `IndexBitSet::is_empty`: `state & MASK == 0`. -/
def ibsIsEmpty (b : Nat) : Bool := (b &&& ibsMASK) == 0

/-- `IndexBitSetIter` yields the members in ascending order (`0..81`). -/
def ibsMembers (b : Nat) : List Nat :=
  (List.range 81).filter (fun i => ibsContains b i)

/-! ## Region topology (`src/cell_group.rs`) -/

/-- `CellGroupType`. -/
inductive CellGroupType where
  | custom
  | standardBlock
  | standardRow
  | standardColumn
deriving DecidableEq, Repr

/-- `CellGroup`: an id, a group type and an `IndexBitSet` of members. -/
structure CellGroup where
  id : Option Nat
  groupType : CellGroupType
  indexes : Nat
deriving DecidableEq, Repr

/-- `CellGroups`: the list of all groups of the topology, in insertion
order (the by-type cache `groups_tagged` is not used by the solver). -/
structure CellGroups where
  groups : List CellGroup
deriving DecidableEq, Repr

/-- `CellGroups::get_groups_at_index`: all groups containing `index`, in
list order.  The Rust version wraps the empty result in
`Err(NoMatchingGroup)`; the solver call sites `unwrap()` it, so an empty
result models a panic site that is never reached for the topologies and
claims considered here. -/
def groupsAtIndex (g : CellGroups) (i : Nat) : List CellGroup :=
  g.groups.filter (fun G => ibsContains G.indexes i)

/-- `CellGroups::get_at_index(index, include_self)` (named
`get_peers_at_index` in the final revision): the union of all groups
containing `index`, with `index` itself removed unless `include_self`.
An empty union is `Err(NoMatchingGroup)` in Rust; see `groupsAtIndex`. -/
def peersStep (i : Nat) (acc : Nat) (G : CellGroup) : Nat :=
  if ibsContains G.indexes i then ibsUnion acc G.indexes else acc

def peersAt (g : CellGroups) (i : Nat) (includeSelf : Bool) : Nat :=
  let u := g.groups.foldl (peersStep i) 0
  if includeSelf then u else ibsRemove u i

/-! ## The board (`src/game_state.rs`, `GameState`)

`GameState` is `[Cell<GameCell>; 81]`; a `GameCell` is one `ValueBitSet`
of remaining candidates.  We model the whole board as a `List Nat` of
length 81 (interior mutability becomes functional update; the aliasing
discipline itself is modelled separately for the frame claim). -/

/-- The board: 81 candidate bit sets. -/
def GameState := List Nat
deriving DecidableEq, Repr

/-- `GameState::get_at_index`. -/
def getCell (s : GameState) (i : Nat) : Nat := List.getD s i 0

/-- `GameCell::from_value`: `ValueBitSet::empty().with_value(value)`. -/
def cellFromValue (v : Nat) : Nat := vbsWithValue vbsEmpty v

/-- `GameState::new`: every cell carries all nine candidates. -/
def emptyBoard : GameState := List.replicate 81 vbsAllValues

/-- `GameState::set_at_index` (release semantics, the `debug_assert!` is
compiled out): a no-op returning `false` if the cell `is_exactly` the
value, otherwise the cell is overwritten with the singleton set. -/
def setAtIndex (s : GameState) (i v : Nat) : GameState × Bool :=
  if vbsIsExactly (getCell s i) v then (s, false)
  else (s.set i (cellFromValue v), true)

/-- `GameState::set_at_index`, debug semantics: `none` models the
`debug_assert!(!test.is_solved() || test.contains(value))` failing
(an attempt to overwrite a solved cell with a different value). -/
def setAtIndexChecked (s : GameState) (i v : Nat) : Option (GameState × Bool) :=
  if vbsLen (getCell s i) == 1 && !vbsContains (getCell s i) v then none
  else some (setAtIndex s i v)

/-- `GameState::forget_at_index`: remove one candidate, report change. -/
def forgetAtIndex (s : GameState) (i v : Nat) : GameState × Bool :=
  if vbsContains (getCell s i) v then
    (s.set i (vbsWithoutValue (getCell s i) v), true)
  else (s, false)

/-- `GameState::forget_many_at_index`: remove a candidate set, report
change. -/
def forgetManyAtIndex (s : GameState) (i values : Nat) : GameState × Bool :=
  if vbsContainsSome (getCell s i) values then
    (s.set i (vbsRemoveMany (getCell s i) values), true)
  else (s, false)

/-- `GameState::place_and_propagate_at_index`: `set_at_index`, then remove
the placed value from every peer (peer set excluding self). -/
def placeAndPropagateAtIndex (g : CellGroups) (s : GameState) (i v : Nat) :
    GameState × Bool :=
  let start := setAtIndex s i v
  (ibsMembers (peersAt g i false)).foldl
    (fun acc j =>
      if vbsContains (getCell acc.1 j) v then
        ((acc.1).set j (vbsWithoutValue (getCell acc.1 j) v), true)
      else acc)
    start

/-- `GameCell::iter_candidates().next().unwrap()` for a solved cell: the
single (lowest) remaining value; `0` stands for the unreachable panic on
an impossible cell. -/
def solvedValueAt (s : GameState) (i : Nat) : Nat :=
  (vbsCandidates (getCell s i)).headD 0

/-- `GameState::is_solved`: every cell has exactly one candidate, and no
peer with a larger index holds the same value. -/
def isSolved (g : CellGroups) (s : GameState) : Bool :=
  ((List.range 81).all (fun i => vbsLen (getCell s i) == 1)) &&
  ((List.range 81).all (fun i =>
    (ibsMembers (peersAt g i false)).all (fun j =>
      !(decide (i < j)) || !(solvedValueAt s j == solvedValueAt s i))))

/-- `GameState::is_consistent`: no cell is empty, and no solved cell has
a solved peer with the same value (the `seen_indexes` bookkeeping skips
only the cell itself, as the peer iterator never repeats an index). -/
def isConsistent (g : CellGroups) (s : GameState) : Bool :=
  ((List.range 81).all (fun i => !(vbsLen (getCell s i) == 0))) &&
  ((List.range 81).all (fun i =>
    if vbsLen (getCell s i) == 1 then
      (ibsMembers (peersAt g i true)).all (fun j =>
        (j == i) ||
        !(vbsLen (getCell s j) == 1) ||
        !(vbsContainsAll (getCell s i) (getCell s j)))
    else true))

/-! ## Strategies as played by `DefaultSolver` (`src/default_solver.rs`) -/

/-- Inner loop of `DefaultSolver::play_naked_singles`: for one solved cell
with candidate set `cset`, walk its peers; `removed_some` is raised when a
peer `contains_all` the singleton, then the singleton is unconditionally
forgotten at the peer. -/
def nsForgetStep (cset : Nat) (acc : GameState × Bool) (j : Nat) :
    GameState × Bool :=
  let flag := acc.2 || vbsContainsAll (getCell acc.1 j) cset
  ((forgetManyAtIndex acc.1 j cset).1, flag)

/-- Walk all peers of one solved cell (see `nsForgetStep`). -/
def nsForgetPeers (cset : Nat) (peers : List Nat) (s : GameState) :
    GameState × Bool :=
  peers.foldl (nsForgetStep cset) (s, false)

/-- One index of the `play_naked_singles` scan; the accumulator carries
the `observed_singles` index bit set, the board and `removed_some`. -/
def nsStep (g : CellGroups) (acc : Nat × GameState × Bool) (u : Nat) :
    Nat × GameState × Bool :=
  if ibsContains acc.1 u then acc              -- try_insert returned false
  else
    let obs := ibsInsert acc.1 u
    let c := getCell acc.2.1 u
    if vbsLen c == 1 then
      let step := nsForgetPeers c (ibsMembers (peersAt g u false)) acc.2.1
      (obs, step.1, acc.2.2 || step.2)
    else (obs, acc.2)

/-- `DefaultSolver::play_naked_singles`.  The function always returns
`Ok` in Rust, so no error component is needed. -/
def playNakedSingles (g : CellGroups) (s : GameState) : GameState × Bool :=
  ((List.range 81).foldl (nsStep g) (0, s, false)).2

/-- `DefaultSolver::play_hidden_singles_in_group`: for every cell with at
least two candidates, subtract the candidates of all same-type peers; if
exactly one value survives, place it with propagation.  Always `Ok`. -/
def playHiddenSingles (g : CellGroups) (t : CellGroupType) (s : GameState) :
    GameState × Bool :=
  (List.range 81).foldl
    (fun (acc : GameState × Bool) u =>
      if vbsLen (getCell acc.1 u) ≤ 1 then acc
      else
        let values := ((groupsAtIndex g u).filter
            (fun G => G.groupType == t)).foldl
          (fun vals G =>
            (ibsMembers G.indexes).foldl
              (fun vals j =>
                if j == u then vals else vbsRemoveMany vals (getCell acc.1 j))
              vals)
          (getCell acc.1 u)
        if vbsLen values == 1 then
          match vbsAsSingleValue values with
          | some v => ((placeAndPropagateAtIndex g acc.1 u v).1, true)
          | none => acc              -- unreachable: the length is one
        else acc)
    (s, false)

/-- One detected naked-twin pair (`TwinPair` in
`DefaultSolver::play_naked_twins_in_group`). -/
structure TwinPair where
  smaller : Nat
  larger : Nat
  values : Nat
deriving DecidableEq, Repr

/-- Detection phase of `DefaultSolver::play_naked_twins_in_group`: scan
the indexes in ascending order, maintaining the `observed_twins` bit set;
collect twin pairs, failing with `InvalidGameState` when more than one
candidate twin matches a cell.  The board is not mutated during the
scan. -/
def ntScan (g : CellGroups) (t : CellGroupType) (s : GameState) :
    List Nat → Nat → List TwinPair → Except Unit (List TwinPair)
  | [], _, pairs => .ok pairs
  | u :: rest, obs, pairs =>
    if ibsContains obs u then ntScan g t s rest obs pairs
    else
      let obs := ibsInsert obs u
      let c := getCell s u
      if vbsLen c == 2 then
        let possible := ((groupsAtIndex g u).filter
            (fun G => G.groupType == t)).flatMap
          (fun G => (ibsMembers G.indexes).filter
            (fun j =>
              !(ibsContains obs j) &&
              vbsLen (getCell s j) == 2 &&
              getCell s j == c))
        match possible with
        | [] => ntScan g t s rest obs pairs
        | [j] =>
          ntScan g t s rest (ibsInsert (ibsInsert obs u) j)
            (pairs ++ [⟨min u j, max u j, c⟩])
        | _ => .error ()             -- more than two "twins" are an error
      else ntScan g t s rest obs pairs

/-- Elimination phase of `DefaultSolver::play_naked_twins_in_group`:
forget each twin pair's values in every other cell of its same-type
groups. -/
def ntApply (g : CellGroups) (t : CellGroupType) (pairs : List TwinPair)
    (s : GameState) : GameState × Bool :=
  pairs.foldl
    (fun acc tw =>
      (((groupsAtIndex g tw.smaller).filter
          (fun G => G.groupType == t)).flatMap
        (fun G => ibsMembers G.indexes)).foldl
        (fun acc2 j =>
          if j == tw.smaller || j == tw.larger then acc2
          else
            let step := forgetManyAtIndex acc2.1 j tw.values
            (step.1, acc2.2 || step.2))
        acc)
    (s, false)

/-- `DefaultSolver::play_naked_twins_in_group`. -/
def playNakedTwins (g : CellGroups) (t : CellGroupType) (s : GameState) :
    Except Unit (GameState × Bool) :=
  match ntScan g t s (List.range 81) 0 [] with
  | .error e => .error e
  | .ok [] => .ok (s, false)         -- twins_to_remove.is_empty()
  | .ok pairs => .ok (ntApply g t pairs s)

/-! ## The `'solving` loop of `DefaultSolver::solve`

One iteration of the loop body.  Note the Rust source: inside
`'solving: loop { .. }` every `Err(_) => { continue; }` arm uses a bare
`continue`, which targets the *innermost* loop, i.e. `'solving` itself —
not `'stack` as the adjacent comment says.  The iteration signal
therefore distinguishes only "run the strategy list again" from "fall
through to the fork code". -/

inductive IterSignal where
  | restart
  | done
deriving DecidableEq, Repr

/-- One pass of the `'solving` loop body, translated match by match from
`DefaultSolver::solve` (release build: the `#[cfg(debug_assertions)]`
blocks are compiled out).  `play_naked_singles` always continues to the
next strategy; each later strategy restarts the pass when it applied a
change; an `InvalidGameState` error restarts the pass (the bare
`continue`). -/
def solvingIter (g : CellGroups) (s : GameState) : GameState × IterSignal :=
  let s0 := (playNakedSingles g s).1
  let h1 := playHiddenSingles g .standardColumn s0
  if h1.2 then (h1.1, .restart) else
  let h2 := playHiddenSingles g .standardRow h1.1
  if h2.2 then (h2.1, .restart) else
  let h3 := playHiddenSingles g .standardBlock h2.1
  if h3.2 then (h3.1, .restart) else
  let h4 := playHiddenSingles g .custom h3.1
  if h4.2 then (h4.1, .restart) else
  match playNakedTwins g .standardColumn h4.1 with
  | .error _ => (h4.1, .restart)
  | .ok n1 =>
    if n1.2 then (n1.1, .restart) else
    match playNakedTwins g .standardRow n1.1 with
    | .error _ => (n1.1, .restart)
    | .ok n2 =>
      if n2.2 then (n2.1, .restart) else
      match playNakedTwins g .standardBlock n2.1 with
      | .error _ => (n2.1, .restart)
      | .ok n3 =>
        if n3.2 then (n3.1, .restart) else
        match playNakedTwins g .custom n3.1 with
        | .error _ => (n3.1, .restart)
        | .ok n4 =>
          if n4.2 then (n4.1, .restart) else
          (n4.1, .done)               -- no more strategies: break

/-- The `'solving` loop: iterate `solvingIter` until it falls through;
`none` models divergence (all fuel spent on restarts). -/
def solvingLoop : Nat → CellGroups → GameState → Option GameState
  | 0, _, _ => none
  | fuel + 1, g, s =>
    match solvingIter g s with
    | (s1, .done) => some s1
    | (s1, .restart) => solvingLoop fuel g s1

/-! ## Branch selection (`DefaultSolver::pick_index_to_fork_from`) -/

/-- `usize::MAX`, the initial `SmallestIndex::size`. -/
def usizeMAX : Nat := 2 ^ 64 - 1

/-- One peer of the inner scan of `pick_index_to_fork_from`: accumulate
`(group_size, (smallest index, smallest size))`, skipping cells with at
most one candidate. -/
def pickCellStep (s : GameState) (acc : Nat × Nat × Nat) (j : Nat) :
    Nat × Nat × Nat :=
  let n := vbsLen (getCell s j)
  if n ≤ 1 then acc
  else (acc.1 + n, if n < acc.2.2 then (j, n) else acc.2)

/-- Inner accumulation of `pick_index_to_fork_from` over one peer set. -/
def pickScanGroup (s : GameState) (peers : List Nat) : Nat × Nat × Nat :=
  peers.foldl (pickCellStep s) (0, 0, usizeMAX)

/-- One anchor index of the outer scan of `pick_index_to_fork_from`:
keep the tracked cell of the peer set with the smallest positive sum. -/
def pickStep (g : CellGroups) (s : GameState) (sm : Nat × Nat) (iut : Nat) :
    Nat × Nat :=
  let inner := pickScanGroup s (ibsMembers (peersAt g iut true))
  if inner.1 < sm.2 && 0 < inner.1 then (inner.2.1, inner.1) else sm

/-- `DefaultSolver::pick_index_to_fork_from`: over all 81 anchor indexes,
find the peer set (self included) with the smallest positive candidate
sum, and return the cell with the fewest candidates tracked inside it. -/
def pickIndexToForkFrom (g : CellGroups) (s : GameState) : Option Nat :=
  let smallest := (List.range 81).foldl (pickStep g s) (0, usizeMAX)
  if smallest.2 != usizeMAX then some smallest.1 else none

/-! ## The top-level search loop (`DefaultSolver::solve`) -/

/-- Outcome of `DefaultSolver::solve`.  `outOfFuel` marks fuel exhaustion
of the model (including genuine divergence of the Rust loop);
`panicked` marks the `unwrap` on the fork cell's candidate iterator,
which is unreachable. -/
inductive SolveResult where
  | ok (b : GameState)
  | unsolvable (b : GameState)
  | outOfFuel (b : GameState)
  | panicked
deriving DecidableEq, Repr

/-- The `'stack` loop of `DefaultSolver::solve`.  The list is the LIFO
stack (head = top); `last` is `last_seen_state`, re-bound to a clone of
every popped state.  A popped state that survives propagation and cannot
be solved is forked: the reduced board (the popped board with the fork
value forgotten, no propagation) is pushed first, then the forked board
(fork value placed and propagated) if it is consistent. -/
def solveLoop : Nat → CellGroups → List GameState → GameState → SolveResult
  | 0, _, _, last => .outOfFuel last
  | _ + 1, _, [], last => .unsolvable last
  | fuel + 1, g, s :: stack, _ =>
    if isSolved g s then .ok s
    else if !isConsistent g s then solveLoop fuel g stack s
    else
      match solvingLoop (fuel + 1) g s with
      | none => .outOfFuel s
      | some s1 =>
        if !isConsistent g s1 then solveLoop fuel g stack s
        else if isSolved g s1 then .ok s1
        else
          match pickIndexToForkFrom g s1 with
          | none => solveLoop fuel g stack s
          | some forkIndex =>
            match (vbsCandidates (getCell s1 forkIndex)).head? with
            | none => .panicked      -- fork_cell.iter_candidates().next().unwrap()
            | some forkValue =>
              let forked := (placeAndPropagateAtIndex g s1 forkIndex forkValue).1
              let reduced := (forgetAtIndex s1 forkIndex forkValue).1
              let stack1 := reduced :: stack
              let stack2 :=
                if isConsistent g forked then forked :: stack1 else stack1
              solveLoop fuel g stack2 s

/-- `DefaultSolver::solve`: the stack starts with a clone of the input;
`last_seen_state` starts as another clone of it. -/
def solve (fuel : Nat) (g : CellGroups) (s : GameState) : SolveResult :=
  solveLoop fuel g [s] s

/-! ## The strategy sequence of `DefaultSolver::solve`

The `'solving` loop consults a fixed sequence of strategy applications.
To state claims about which strategies the solver runs (and in which
order), the sequence is reified as data, and `solvingIter` is proved
equal to the generic executor over that sequence. -/

/-- The five deduction rules of the repository (`src/strategies/`).
`DefaultSolver` implements only the first three; `hiddenTwins` and
`xwing` exist as source files but are not part of the crate (`lib.rs`
declares no `strategies` module) and are never called by the solver. -/
inductive StrategyKind where
  | nakedSingles
  | hiddenSingles
  | nakedTwins
  | hiddenTwins
  | xwing
deriving DecidableEq, Repr

/-- One strategy application in the `'solving` loop: a rule and, for the
group-scoped rules, the group type it is applied to. -/
structure StrategyStep where
  kind : StrategyKind
  scope : Option CellGroupType
deriving DecidableEq, Repr

/-- Whether an `Ok(applied == true)` outcome restarts the `'solving` loop
from the first strategy (`continue 'solving`).  `play_naked_singles`
ignores its result and always falls through. -/
def stepRestartsOnChange (st : StrategyStep) : Bool :=
  match st.kind with
  | .nakedSingles => false
  | _ => true

/-- Run one strategy step as `DefaultSolver::solve` does.  The last two
kinds have no implementation reachable from the solver; their arms are
inert placeholders that the sequence below never selects. -/
def runStep (st : StrategyStep) (g : CellGroups) (s : GameState) :
    Except Unit (GameState × Bool) :=
  match st.kind, st.scope with
  | .nakedSingles, _ => .ok (playNakedSingles g s)
  | .hiddenSingles, some t => .ok (playHiddenSingles g t s)
  | .hiddenSingles, none => .ok (s, false)
  | .nakedTwins, some t => playNakedTwins g t s
  | .nakedTwins, none => .ok (s, false)
  | .hiddenTwins, _ => .ok (s, false)
  | .xwing, _ => .ok (s, false)

/-- Generic executor for one pass of the `'solving` loop over a strategy
sequence: an error produces a restart with the pre-step board (the bare
`continue`), a change by a restart-requiring step produces a restart,
otherwise execution falls through to the next step. -/
def runSteps : List StrategyStep → CellGroups → GameState → GameState × IterSignal
  | [], _, s => (s, .done)
  | st :: rest, g, s =>
    match runStep st g s with
    | .error _ => (s, .restart)
    | .ok (s1, applied) =>
      if stepRestartsOnChange st && applied then (s1, .restart)
      else runSteps rest g s1

/-- The exact sequence of strategy applications in the body of the
`'solving` loop of `DefaultSolver::solve` (lines 65–273). -/
def solveStrategySequence : List StrategyStep :=
  [⟨.nakedSingles, none⟩,
   ⟨.hiddenSingles, some .standardColumn⟩,
   ⟨.hiddenSingles, some .standardRow⟩,
   ⟨.hiddenSingles, some .standardBlock⟩,
   ⟨.hiddenSingles, some .custom⟩,
   ⟨.nakedTwins, some .standardColumn⟩,
   ⟨.nakedTwins, some .standardRow⟩,
   ⟨.nakedTwins, some .standardBlock⟩,
   ⟨.nakedTwins, some .custom⟩]

/-! ## The standard Sudoku topology

`CellGroups::default().with_default_sudoku_blocks().with_default_rows_and_columns()`
as used by `example_games::sudoku`: nine 3×3 blocks, then nine rows,
then nine columns, with the sequential ids produced by the builders. -/

/-- Bit set of a list of indexes. -/
def ibsOfList (l : List Nat) : Nat := l.foldl (fun b i => ibsInsert b i) 0

/-- Block `k` (`k < 9`): the 3×3 block at `x = (k % 3) * 3`,
`y = (k / 3) * 3`. -/
def blockGroup (k : Nat) : CellGroup :=
  ⟨some (k + 1), .standardBlock,
    ibsOfList ((List.range 3).flatMap (fun row =>
      (List.range 3).map (fun col =>
        (k / 3 * 3 + row) * 9 + (k % 3 * 3 + col))))⟩

/-- Row `y`. -/
def rowGroup (y : Nat) : CellGroup :=
  ⟨some (y + 9), .standardRow, ibsOfList ((List.range 9).map (fun x => y * 9 + x))⟩

/-- Column `x`. -/
def colGroup (x : Nat) : CellGroup :=
  ⟨some (x + 18), .standardColumn,
    ibsOfList ((List.range 9).map (fun y => y * 9 + x))⟩

/-- The standard topology: blocks, rows, columns (insertion order of
`example_games::sudoku::example_sudoku`). -/
def sudokuGroups : CellGroups :=
  ⟨((List.range 9).map blockGroup) ++ ((List.range 9).map rowGroup) ++
    ((List.range 9).map colGroup)⟩

/-! ## Specification-side definitions for branch selection

`pick_index_to_fork_from` is compared against a declarative rendering of
the specification sentence: "for every cell index, compute the sum of
candidate-set sizes over its full peer set (including itself), counting
only cells with ≥2 candidates; track, within that peer set, the cell
with the fewest candidates.  Select the overall cell whose peer-set sum
is smallest (ties broken by iteration order)." -/

/-- The first element of the list attaining the minimal `f`-value
(iteration-order tie break). -/
def firstMinBy (f : Nat → Nat) : List Nat → Option Nat
  | [] => none
  | x :: xs =>
    match firstMinBy f xs with
    | none => some x
    | some y => if f x ≤ f y then some x else some y

/-- Modelled from the spec: the sum of candidate-set sizes over the full
peer set of `i` (self included), counting only cells with at least two
candidates. -/
def peerSumSpec (g : CellGroups) (s : GameState) (i : Nat) : Nat :=
  (((ibsMembers (peersAt g i true)).filter
      (fun j => 2 ≤ vbsLen (getCell s j))).map
    (fun j => vbsLen (getCell s j))).sum

/-- Modelled from the spec: the cell with the fewest candidates within
the peer set of `i`, among cells with at least two candidates (first
such cell on ties). -/
def trackedCellSpec (g : CellGroups) (s : GameState) (i : Nat) : Option Nat :=
  firstMinBy (fun j => vbsLen (getCell s j))
    ((ibsMembers (peersAt g i true)).filter
      (fun j => 2 ≤ vbsLen (getCell s j)))

/-- Modelled from the spec: the fork point is the tracked cell of the
anchor index with the smallest positive peer-set sum, ties broken by the
lowest anchor index; `none` when no anchor has a positive sum. -/
def pickSpec (g : CellGroups) (s : GameState) : Option Nat :=
  (firstMinBy (peerSumSpec g s)
      ((List.range 81).filter (fun i => 0 < peerSumSpec g s i))).bind
    (trackedCellSpec g s)

/-- The candidate-tracking part of `pickCellStep` on its own (used to
relate the combined fold to the specification). -/
def minCellStep (s : GameState) (a : Nat × Nat) (j : Nat) : Nat × Nat :=
  if vbsLen (getCell s j) < a.2 then (j, vbsLen (getCell s j)) else a

/-- The anchor-selection part of `pickStep` restricted to anchors with a
positive peer sum (used to relate the outer fold to the
specification). -/
def minAnchorStep (g : CellGroups) (s : GameState) (sm : Nat × Nat) (i : Nat) :
    Nat × Nat :=
  if peerSumSpec g s i < sm.2 then
    ((pickScanGroup s (ibsMembers (peersAt g i true))).2.1, peerSumSpec g s i)
  else sm

/-! ## Candidate-set order (for the monotonicity claim) -/

/-- `a` encodes a subset of the values encoded by `b`. -/
def vbsSubset (a b : Nat) : Prop :=
  ∀ k, a.testBit k = true → b.testBit k = true

/-! ## A store model for the frame claim

`GameState` uses `Cell<GameCell>` interior mutability: boards are
mutated in place through shared references.  To state that `solve` never
mutates the caller's board, boards are placed in an explicit store of
board objects; cloning allocates a fresh slot, every in-place mutation
of the Rust code becomes a write to the slot holding the mutated board.
The search stack holds slot handles. -/

/-- The store of live board objects; a handle is a position. -/
abbrev Store := List GameState

/-- `GameState::clone`: allocate a fresh slot holding a copy. -/
def allocB (σ : Store) (b : GameState) : Store × Nat := (σ ++ [b], σ.length)

/-- In-place mutation of the board in slot `h`. -/
def writeB (σ : Store) (h : Nat) (b : GameState) : Store := σ.set h b

/-- Read the board in slot `h`. -/
def readB (σ : Store) (h : Nat) : GameState := σ.getD h []

/-- The `'stack` loop of `DefaultSolver::solve` over the store: each
`clone()` of the Rust source is an `allocB`, each in-place mutation of
the popped board (strategy propagation, `forget_at_index`) is a `writeB`
to its slot, and the stack holds handles.  The board values computed are
exactly those of the pure `solveLoop`; the store holding the clone made
for `last_seen_state` is threaded as in the source. -/
def solveLoopH : Nat → CellGroups → Store → List Nat → Nat → Store × SolveResult
  | 0, _, σ, _, hL => (σ, .outOfFuel (readB σ hL))
  | _ + 1, _, σ, [], hL => (σ, .unsolvable (readB σ hL))
  | fuel + 1, g, σ, h :: stackT, _ =>
    -- let s = the popped board; allocB σ s is `last_seen_state = state.clone()`
    if isSolved g (readB σ h) then (((allocB σ (readB σ h)).1), .ok (readB σ h))
    else if !isConsistent g (readB σ h) then solveLoopH fuel g ((allocB σ (readB σ h)).1) stackT ((allocB σ (readB σ h)).2)
    else
      match solvingLoop (fuel + 1) g (readB σ h) with
      | none => (((allocB σ (readB σ h)).1), .outOfFuel (readB σ h))
      | some s1 =>
        -- strategies mutate the popped board in place
        if !isConsistent g s1 then solveLoopH fuel g (writeB ((allocB σ (readB σ h)).1) h s1) stackT ((allocB σ (readB σ h)).2)
        else if isSolved g s1 then ((writeB ((allocB σ (readB σ h)).1) h s1), .ok s1)
        else
          match pickIndexToForkFrom g s1 with
          | none => solveLoopH fuel g (writeB ((allocB σ (readB σ h)).1) h s1) stackT ((allocB σ (readB σ h)).2)
          | some i =>
            match (vbsCandidates (getCell s1 i)).head? with
            | none => ((writeB ((allocB σ (readB σ h)).1) h s1), .panicked)
            | some v =>
              -- forked = state.clone(), then place-and-propagate into it;
              -- state.forget_at_index in place; stack.push(state.clone());
              -- push the forked handle on top only if consistent
              solveLoopH fuel g ((allocB (writeB (writeB ((allocB (writeB ((allocB σ (readB σ h)).1) h s1) s1).1) ((allocB (writeB ((allocB σ (readB σ h)).1) h s1) s1).2) ((placeAndPropagateAtIndex g s1 i v).1)) h ((forgetAtIndex s1 i v).1)) ((forgetAtIndex s1 i v).1)).1)
                (if isConsistent g (readB ((allocB (writeB (writeB ((allocB (writeB ((allocB σ (readB σ h)).1) h s1) s1).1) ((allocB (writeB ((allocB σ (readB σ h)).1) h s1) s1).2) ((placeAndPropagateAtIndex g s1 i v).1)) h ((forgetAtIndex s1 i v).1)) ((forgetAtIndex s1 i v).1)).1) ((allocB (writeB ((allocB σ (readB σ h)).1) h s1) s1).2)) then ((allocB (writeB ((allocB σ (readB σ h)).1) h s1) s1).2) :: ((allocB (writeB (writeB ((allocB (writeB ((allocB σ (readB σ h)).1) h s1) s1).1) ((allocB (writeB ((allocB σ (readB σ h)).1) h s1) s1).2) ((placeAndPropagateAtIndex g s1 i v).1)) h ((forgetAtIndex s1 i v).1)) ((forgetAtIndex s1 i v).1)).2) :: stackT
                 else ((allocB (writeB (writeB ((allocB (writeB ((allocB σ (readB σ h)).1) h s1) s1).1) ((allocB (writeB ((allocB σ (readB σ h)).1) h s1) s1).2) ((placeAndPropagateAtIndex g s1 i v).1)) h ((forgetAtIndex s1 i v).1)) ((forgetAtIndex s1 i v).1)).2) :: stackT) ((allocB σ (readB σ h)).2)

/-- `DefaultSolver::solve` over the store: the input slot `hIn` is only
ever read; `last_seen_state` and the initial stack entry are clones. -/
def solveH (fuel : Nat) (g : CellGroups) (σ : Store) (hIn : Nat) :
    Store × SolveResult :=
  let aL := allocB σ (readB σ hIn)       -- last_seen_state = state.as_ref().clone()
  let a0 := allocB aL.1 (readB aL.1 aL.2)  -- stack = vec![last_seen_state.clone()]
  solveLoopH fuel g a0.1 [a0.2] aL.2

/-! ## Concrete boards used by the witnesses and counterexamples -/

/-- A board whose first three column-0 cells carry the candidate pair
`{1, 2}` and whose other 78 cells are open: three identical two-value
candidate sets in one column.  Naked Singles and Hidden Singles leave it
untouched and Naked Twins on standard columns reports the
contradiction. -/
def c2Board : GameState :=
  (List.range 81).map (fun i => if i == 0 || i == 9 || i == 18 then 3 else 511)

/-- A board on which one Naked Singles pass solves cell 0 (index already
visited) so that a second pass still removes candidates: cell 0 holds
`{1, 2}`, cell 1 is solved `{2}`, cell 2 holds `{1, 3}`. -/
def c4Board : GameState :=
  (List.range 81).map
    (fun i => if i == 0 then 3 else if i == 1 then 2 else if i == 2 then 5 else 511)

/-- Two overlapping custom groups: `{0, 1, 20, .., 26}` and
`{1, 2, .., 9}` (overlap at cell 1). -/
def c5xGroups : CellGroups :=
  ⟨[⟨some 1, .custom, ibsOfList [0, 1, 20, 21, 22, 23, 24, 25, 26]⟩,
    ⟨some 2, .custom, ibsOfList [1, 2, 3, 4, 5, 6, 7, 8, 9]⟩]⟩

/-- Cells 0–3 hold the pair `{1, 2}`, all other cells are open.  Cells
1, 2, 3 are three cells of the second custom group with an identical
two-value candidate set. -/
def c5xBoard : GameState :=
  (List.range 81).map (fun i => if i ≤ 3 then 3 else 511)

/-- The canonical solved grid of `example_games::sudoku` (the documented
unique solution of the 30-clue example). -/
def solvedBoard : GameState :=
  [5, 3, 4, 6, 7, 8, 9, 1, 2,
   6, 7, 2, 1, 9, 5, 3, 4, 8,
   1, 9, 8, 3, 4, 2, 5, 6, 7,
   8, 5, 9, 7, 6, 1, 4, 2, 3,
   4, 2, 6, 8, 5, 3, 7, 9, 1,
   7, 1, 3, 9, 2, 4, 8, 5, 6,
   9, 6, 1, 5, 3, 7, 2, 8, 4,
   2, 8, 7, 4, 1, 9, 6, 3, 5,
   3, 4, 5, 2, 8, 6, 1, 7, 9].map cellFromValue

end Sudoku2

deriving instance DecidableEq for Except

set_option maxRecDepth 1000000
set_option maxHeartbeats 1000000

namespace Sudoku2

/-! ## General helper lemmas -/

theorem vbsSubset_refl (a : Nat) : vbsSubset a a := fun _ h => h

theorem vbsSubset_land_left (a m : Nat) : vbsSubset (a &&& m) a := by
  intro k h
  rw [Nat.testBit_land] at h
  exact (Bool.and_eq_true _ _).mp h |>.1

theorem getCell_set_ne {s : GameState} {i j : Nat} (h : j ≠ i) (x : Nat) :
    getCell (List.set s i x) j = getCell s j := by
  simp [getCell, List.getD, List.getElem?_set_ne (Ne.symm h)]

theorem getCell_set_subset {s : GameState} {i : Nat} {x : Nat}
    (h : vbsSubset x (getCell s i)) (j : Nat) :
    vbsSubset (getCell (List.set s i x) j) (getCell s j) := by
  by_cases hj : j = i
  · subst hj
    by_cases hlen : j < List.length s
    · have : getCell (List.set s j x) j = x := by
        simp [getCell, List.getD, List.getElem?_set_self, hlen]
      rw [this]; exact h
    · rw [List.set_eq_of_length_le (Nat.le_of_not_lt hlen)]
      exact vbsSubset_refl _
  · rw [getCell_set_ne hj]; exact vbsSubset_refl _

/-! ## Claim C1

The propagation phase of `DefaultSolver::solve` runs the strategy
sequence `solveStrategySequence`: Naked Singles, Hidden Singles on the
four group types, Naked Twins on the four group types.  Hidden Twins and
X-Wing never appear, and there is no per-strategy configuration. -/

/-- C1 (counterexample): the claim says the propagation phase applies
all five strategies, Hidden Twins and X-Wing included.  The strategy
sequence actually consulted by the `'solving` loop contains neither. -/
theorem claim1_counterexample :
    ((solveStrategySequence.map StrategyStep.kind).contains .hiddenTwins = false) ∧
    ((solveStrategySequence.map StrategyStep.kind).contains .xwing = false) := by
  decide

theorem runSteps_cons_ns {rest : List StrategyStep} {g : CellGroups}
    {s s0 : GameState} {b0 : Bool} (h : playNakedSingles g s = (s0, b0)) :
    runSteps (⟨.nakedSingles, none⟩ :: rest) g s = runSteps rest g s0 := by
  rw [runSteps]; simp [runStep, h, stepRestartsOnChange]

theorem runSteps_cons_hs_restart {t : CellGroupType} {rest : List StrategyStep}
    {g : CellGroups} {s s1 : GameState}
    (h : playHiddenSingles g t s = (s1, true)) :
    runSteps (⟨.hiddenSingles, some t⟩ :: rest) g s = (s1, .restart) := by
  rw [runSteps]; simp [runStep, h, stepRestartsOnChange]

theorem runSteps_cons_hs_next {t : CellGroupType} {rest : List StrategyStep}
    {g : CellGroups} {s s1 : GameState}
    (h : playHiddenSingles g t s = (s1, false)) :
    runSteps (⟨.hiddenSingles, some t⟩ :: rest) g s = runSteps rest g s1 := by
  rw [runSteps]; simp [runStep, h, stepRestartsOnChange]

theorem runSteps_cons_nt_err {t : CellGroupType} {rest : List StrategyStep}
    {g : CellGroups} {s : GameState} {e : Unit}
    (h : playNakedTwins g t s = .error e) :
    runSteps (⟨.nakedTwins, some t⟩ :: rest) g s = (s, .restart) := by
  rw [runSteps]; simp [runStep, h]

theorem runSteps_cons_nt_restart {t : CellGroupType} {rest : List StrategyStep}
    {g : CellGroups} {s s1 : GameState}
    (h : playNakedTwins g t s = .ok (s1, true)) :
    runSteps (⟨.nakedTwins, some t⟩ :: rest) g s = (s1, .restart) := by
  rw [runSteps]; simp [runStep, h, stepRestartsOnChange]

theorem runSteps_cons_nt_next {t : CellGroupType} {rest : List StrategyStep}
    {g : CellGroups} {s s1 : GameState}
    (h : playNakedTwins g t s = .ok (s1, false)) :
    runSteps (⟨.nakedTwins, some t⟩ :: rest) g s = runSteps rest g s1 := by
  rw [runSteps]; simp [runStep, h, stepRestartsOnChange]

theorem runSteps_nil (g : CellGroups) (s : GameState) :
    runSteps [] g s = (s, .done) := rfl

/-- C1 (amended): on every branch, one propagation pass is exactly the
run of the nine-step sequence — Naked Singles, then Hidden Singles per
group type, then Naked Twins per group type, in ascending cost order;
only these three strategy kinds occur. -/
theorem claim1 (g : CellGroups) (s : GameState) :
    solvingIter g s = runSteps solveStrategySequence g s ∧
    solveStrategySequence.map StrategyStep.kind =
      [.nakedSingles] ++ List.replicate 4 .hiddenSingles ++
        List.replicate 4 .nakedTwins := by
  refine ⟨?_, by decide⟩
  show _ = runSteps
    [⟨.nakedSingles, none⟩,
     ⟨.hiddenSingles, some .standardColumn⟩,
     ⟨.hiddenSingles, some .standardRow⟩,
     ⟨.hiddenSingles, some .standardBlock⟩,
     ⟨.hiddenSingles, some .custom⟩,
     ⟨.nakedTwins, some .standardColumn⟩,
     ⟨.nakedTwins, some .standardRow⟩,
     ⟨.nakedTwins, some .standardBlock⟩,
     ⟨.nakedTwins, some .custom⟩] g s
  simp only [solvingIter]
  rcases h0 : playNakedSingles g s with ⟨s0, b0⟩
  rw [runSteps_cons_ns h0]
  simp only [h0]
  rcases h1 : playHiddenSingles g .standardColumn s0 with ⟨s1, a1⟩
  simp only [h1]
  cases a1
  case true => rw [runSteps_cons_hs_restart h1]; simp
  case false =>
  rw [runSteps_cons_hs_next h1]
  simp only [if_neg Bool.false_ne_true]
  rcases h2 : playHiddenSingles g .standardRow s1 with ⟨s2, a2⟩
  simp only [h2]
  cases a2
  case true => rw [runSteps_cons_hs_restart h2]; simp
  case false =>
  rw [runSteps_cons_hs_next h2]
  simp only [if_neg Bool.false_ne_true]
  rcases h3 : playHiddenSingles g .standardBlock s2 with ⟨s3, a3⟩
  simp only [h3]
  cases a3
  case true => rw [runSteps_cons_hs_restart h3]; simp
  case false =>
  rw [runSteps_cons_hs_next h3]
  simp only [if_neg Bool.false_ne_true]
  rcases h4 : playHiddenSingles g .custom s3 with ⟨s4, a4⟩
  simp only [h4]
  cases a4
  case true => rw [runSteps_cons_hs_restart h4]; simp
  case false =>
  rw [runSteps_cons_hs_next h4]
  simp only [if_neg Bool.false_ne_true]
  cases hn1 : playNakedTwins g .standardColumn s4 with
  | error e => rw [runSteps_cons_nt_err hn1]
  | ok p1 =>
  rcases p1 with ⟨s5, a5⟩
  simp only [hn1]
  cases a5
  case true => rw [runSteps_cons_nt_restart hn1]; simp
  case false =>
  rw [runSteps_cons_nt_next hn1]
  simp only [if_neg Bool.false_ne_true]
  cases hn2 : playNakedTwins g .standardRow s5 with
  | error e => rw [runSteps_cons_nt_err hn2]
  | ok p2 =>
  rcases p2 with ⟨s6, a6⟩
  simp only [hn2]
  cases a6
  case true => rw [runSteps_cons_nt_restart hn2]; simp
  case false =>
  rw [runSteps_cons_nt_next hn2]
  simp only [if_neg Bool.false_ne_true]
  cases hn3 : playNakedTwins g .standardBlock s6 with
  | error e => rw [runSteps_cons_nt_err hn3]
  | ok p3 =>
  rcases p3 with ⟨s7, a7⟩
  simp only [hn3]
  cases a7
  case true => rw [runSteps_cons_nt_restart hn3]; simp
  case false =>
  rw [runSteps_cons_nt_next hn3]
  simp only [if_neg Bool.false_ne_true]
  cases hn4 : playNakedTwins g .custom s7 with
  | error e => rw [runSteps_cons_nt_err hn4]
  | ok p4 =>
  rcases p4 with ⟨s8, a8⟩
  simp only [hn4]
  cases a8
  case true => rw [runSteps_cons_nt_restart hn4]; simp
  case false => rw [runSteps_cons_nt_next hn4, runSteps_nil]; simp

/-! ## Claim C2

The `Err(_) => { continue; }` arms of the `'solving` loop use a bare
`continue`, which in Rust targets the innermost enclosing loop — the
`'solving` loop itself — although the adjacent comment says "continue
with previous stack frame".  On a board that is a fixed point of Naked
and Hidden Singles and on which Naked Twins reports `InvalidGameState`,
the loop therefore re-runs the strategies on the unchanged board
forever: the branch is never discarded and `solve` never returns. -/

/-- Unfolding equation for one iteration of the `'stack` loop. -/
theorem solveLoop_step (fuel : Nat) (g : CellGroups) (s : GameState)
    (stack : List GameState) (last : GameState) :
    solveLoop (fuel + 1) g (s :: stack) last =
      (if isSolved g s then .ok s
      else if !isConsistent g s then solveLoop fuel g stack s
      else
        match solvingLoop (fuel + 1) g s with
        | none => .outOfFuel s
        | some s1 =>
          if !isConsistent g s1 then solveLoop fuel g stack s
          else if isSolved g s1 then .ok s1
          else
            match pickIndexToForkFrom g s1 with
            | none => solveLoop fuel g stack s
            | some forkIndex =>
              match (vbsCandidates (getCell s1 forkIndex)).head? with
              | none => .panicked
              | some forkValue =>
                let forked := (placeAndPropagateAtIndex g s1 forkIndex forkValue).1
                let reduced := (forgetAtIndex s1 forkIndex forkValue).1
                let stack1 := reduced :: stack
                let stack2 :=
                  if isConsistent g forked then forked :: stack1 else stack1
                solveLoop fuel g stack2 s) := rfl

theorem c2_naked_singles_fixed :
    playNakedSingles sudokuGroups c2Board = (c2Board, false) := by decide

theorem c2_hidden_col_fixed :
    playHiddenSingles sudokuGroups .standardColumn c2Board = (c2Board, false) := by
  decide

theorem c2_hidden_row_fixed :
    playHiddenSingles sudokuGroups .standardRow c2Board = (c2Board, false) := by
  decide

theorem c2_hidden_block_fixed :
    playHiddenSingles sudokuGroups .standardBlock c2Board = (c2Board, false) := by
  decide

theorem c2_hidden_custom_fixed :
    playHiddenSingles sudokuGroups .custom c2Board = (c2Board, false) := by decide

theorem c2_naked_twins_invalid :
    playNakedTwins sudokuGroups .standardColumn c2Board = .error () := by decide

theorem c2_iter_fixed :
    solvingIter sudokuGroups c2Board = (c2Board, .restart) := by
  simp only [solvingIter, c2_naked_singles_fixed, c2_hidden_col_fixed,
    c2_hidden_row_fixed, c2_hidden_block_fixed, c2_hidden_custom_fixed,
    c2_naked_twins_invalid]
  rfl

theorem c2_board_consistent : isConsistent sudokuGroups c2Board = true := by decide

theorem c2_board_not_solved : isSolved sudokuGroups c2Board = false := by decide

/-- C2 (code bug): on `c2Board` the Naked Twins strategy reports
`InvalidGameState`, yet for every amount of fuel the `'solving` loop
keeps restarting on the identical board (`solvingLoop` never returns)
and `solve` never finishes — the branch is not discarded and the search
does not continue with the next stacked board. -/
theorem claim2 :
    playNakedTwins sudokuGroups .standardColumn c2Board = .error () ∧
    (∀ fuel, solvingLoop fuel sudokuGroups c2Board = none) ∧
    (∀ fuel, solve fuel sudokuGroups c2Board = .outOfFuel c2Board) := by
  have hloop : ∀ fuel, solvingLoop fuel sudokuGroups c2Board = none := by
    intro fuel
    induction fuel with
    | zero => rfl
    | succ n ih => rw [solvingLoop, c2_iter_fixed]; exact ih
  refine ⟨c2_naked_twins_invalid, hloop, ?_⟩
  intro fuel
  cases fuel with
  | zero => rfl
  | succ n =>
    show solveLoop (n + 1) sudokuGroups [c2Board] c2Board = _
    rw [solveLoop_step n sudokuGroups c2Board [] c2Board]
    rw [c2_board_not_solved]
    rw [c2_board_consistent]
    rw [hloop (n + 1)]
    rfl


/-! ## Bit-level helper lemmas -/

theorem vbsSubset_trans {a b c : Nat} (h1 : vbsSubset a b) (h2 : vbsSubset b c) :
    vbsSubset a c := fun k hk => h2 k (h1 k hk)

theorem vbsContains_eq_testBit (s v : Nat) :
    vbsContains s v = s.testBit (v - 1) := by
  unfold vbsContains
  rw [Nat.one_shiftLeft, Nat.and_two_pow]
  cases h : s.testBit (v - 1) <;> simp [h]

theorem testBit_511 {k : Nat} (hk : k < 9) : (511 : Nat).testBit k = true := by
  have h9 : (511 : Nat) = 2 ^ 9 - 1 := by norm_num
  rw [h9, Nat.testBit_two_pow_sub_one]
  simp [hk]

theorem testBit_false_of_lt_512 {s k : Nat} (hs : s < 512) (hk : 9 ≤ k) :
    s.testBit k = false := by
  apply Nat.testBit_lt_two_pow
  calc s < 512 := hs
    _ = 2 ^ 9 := by norm_num
    _ ≤ 2 ^ k := Nat.pow_le_pow_right (by norm_num) hk

theorem vbsLen_eq_countP (s : Nat) :
    vbsLen s = (List.range 9).countP (fun k => s.testBit k) := by
  unfold vbsLen vbsMASK
  refine List.countP_congr (fun k hk => ?_)
  have hk9 := List.mem_range.mp hk
  rw [Nat.testBit_land, testBit_511 hk9, Bool.and_true]

/-- A masked cell with exactly one candidate is a power of two. -/
theorem vbsLen_one_exists {s : Nat} (hs : s < 512) (h : vbsLen s = 1) :
    ∃ k, k < 9 ∧ s = 2 ^ k := by
  rw [vbsLen_eq_countP, List.countP_eq_length_filter] at h
  obtain ⟨a, ha⟩ := List.length_eq_one.mp h
  have hmem : ∀ k, k ∈ (List.range 9).filter (fun k => s.testBit k) ↔ k = a := by
    intro k; rw [ha]; simp
  have haf : a ∈ (List.range 9).filter (fun k => s.testBit k) := by
    rw [ha]; simp
  have ha9 : a < 9 := List.mem_range.mp (List.mem_filter.mp haf).1
  have hab : s.testBit a = true := by
    have := (List.mem_filter.mp haf).2; simpa using this
  refine ⟨a, ha9, Nat.eq_of_testBit_eq (fun n => ?_)⟩
  rw [Nat.testBit_two_pow]
  by_cases hn : n = a
  · subst hn; simp [hab]
  · have hfalse : s.testBit n = false := by
      by_cases hn9 : n < 9
      · by_contra hne
        have hb : s.testBit n = true := by
          cases hval : s.testBit n
          · exact absurd hval hne
          · rfl
        have : n ∈ (List.range 9).filter (fun k => s.testBit k) := by
          simp [List.mem_filter, List.mem_range, hn9, hb]
        exact hn ((hmem n).mp this)
      · exact testBit_false_of_lt_512 hs (Nat.le_of_not_lt hn9)
    simp [hfalse, Ne.symm hn]

/-! ## Claim C6

Per-cell candidate sets only shrink: each mutation the solver performs
during propagation and forking maps every cell's candidate set to a
subset of its previous value. -/

theorem forgetManyAtIndex_subset (s : GameState) (i values j : Nat) :
    vbsSubset (getCell (forgetManyAtIndex s i values).1 j) (getCell s j) := by
  unfold forgetManyAtIndex
  split
  · exact getCell_set_subset (vbsSubset_land_left _ _) j
  · exact vbsSubset_refl _

theorem forgetAtIndex_subset (s : GameState) (i v j : Nat) :
    vbsSubset (getCell (forgetAtIndex s i v).1 j) (getCell s j) := by
  unfold forgetAtIndex
  split
  · exact getCell_set_subset (vbsSubset_land_left _ _) j
  · exact vbsSubset_refl _

theorem setAtIndex_subset {s : GameState} {i v : Nat}
    (h : vbsContains (getCell s i) v = true) (j : Nat) :
    vbsSubset (getCell (setAtIndex s i v).1 j) (getCell s j) := by
  unfold setAtIndex
  split
  · exact vbsSubset_refl _
  · refine getCell_set_subset (fun k hk => ?_) j
    unfold cellFromValue vbsWithValue vbsEmpty at hk
    rw [Nat.testBit_lor, Nat.zero_testBit, Bool.false_or, Nat.testBit_land,
      Nat.one_shiftLeft, Nat.testBit_two_pow] at hk
    have hkv : v - 1 = k := by
      have := (Bool.and_eq_true _ _).mp hk
      exact of_decide_eq_true this.1
    rw [vbsContains_eq_testBit] at h
    rw [← hkv]; exact h

theorem propagate_fold_subset (v : Nat) (l : List Nat) :
    ∀ (acc : GameState × Bool) (s : GameState),
      (∀ j, vbsSubset (getCell acc.1 j) (getCell s j)) →
      ∀ j, vbsSubset
        (getCell (l.foldl
          (fun acc j =>
            if vbsContains (getCell acc.1 j) v then
              ((acc.1).set j (vbsWithoutValue (getCell acc.1 j) v), true)
            else acc) acc).1 j)
        (getCell s j) := by
  induction l with
  | nil => intro acc s h j; exact h j
  | cons p rest ih =>
    intro acc s h j
    rw [List.foldl_cons]
    refine ih _ s (fun j2 => ?_) j
    by_cases hc : vbsContains (getCell acc.1 p) v = true
    · simp only [hc, if_true]
      refine vbsSubset_trans ?_ (h j2)
      exact getCell_set_subset (vbsSubset_land_left _ _) j2
    · simp only [Bool.not_eq_true] at hc
      simp only [hc]
      exact h j2

/-- C6: the three board mutations used during propagation and forking —
place-and-propagate (with a value among the target cell's current
candidates), forgetting one candidate, and forgetting a candidate set —
map every cell's candidate set to a subset of its previous value. -/
theorem claim6 :
    (∀ (g : CellGroups) (s : GameState) (i v : Nat),
      vbsContains (getCell s i) v = true →
      ∀ j, vbsSubset (getCell (placeAndPropagateAtIndex g s i v).1 j)
        (getCell s j)) ∧
    (∀ (s : GameState) (i v j : Nat),
      vbsSubset (getCell (forgetAtIndex s i v).1 j) (getCell s j)) ∧
    (∀ (s : GameState) (i values j : Nat),
      vbsSubset (getCell (forgetManyAtIndex s i values).1 j) (getCell s j)) := by
  refine ⟨?_, forgetAtIndex_subset, forgetManyAtIndex_subset⟩
  intro g s i v h j
  unfold placeAndPropagateAtIndex
  exact propagate_fold_subset v (ibsMembers (peersAt g i false))
    (setAtIndex s i v) s (setAtIndex_subset h) j

/-- C6 witness: placing value 1 at cell 0 of the open board removes
candidates from peers only; cell 20 keeps a subset of its candidates. -/
theorem claim6_witness :
    vbsContains (getCell emptyBoard 0) 1 = true ∧
    vbsSubset (getCell (placeAndPropagateAtIndex sudokuGroups emptyBoard 0 1).1 20)
      (getCell emptyBoard 20) ∧
    vbsSubset (getCell (forgetAtIndex emptyBoard 3 5).1 3) (getCell emptyBoard 3) :=
  ⟨by decide, claim6.1 sudokuGroups emptyBoard 0 1 (by decide) 20,
    claim6.2.1 emptyBoard 3 5 3⟩

/-! ## Claim C9

Overwriting a solved cell through `set_at_index`: a different value
trips the `debug_assert!` (modelled by `setAtIndexChecked` returning
`none`); the value the cell already holds is a no-op reporting `false`. -/

/-- C9: for a solved cell (one candidate, masked payload), setting a
value the cell does not contain fails the checked contract, and setting
the value it holds returns the unchanged board and `false`. -/
theorem claim9 (s : GameState) (i v : Nat) (hv1 : 1 ≤ v) (hv9 : v ≤ 9)
    (hcell : getCell s i < 512) (hsolved : vbsLen (getCell s i) = 1) :
    (vbsContains (getCell s i) v = false → setAtIndexChecked s i v = none) ∧
    (vbsContains (getCell s i) v = true →
      setAtIndexChecked s i v = some (s, false)) := by
  constructor
  · intro hc
    unfold setAtIndexChecked
    rw [hsolved, hc]
    rfl
  · intro hc
    obtain ⟨k, hk9, hk⟩ := vbsLen_one_exists hcell hsolved
    have hexact : vbsIsExactly (getCell s i) v = true := by
      rw [vbsContains_eq_testBit, hk, Nat.testBit_two_pow] at hc
      have hkv : k = v - 1 := of_decide_eq_true hc
      unfold vbsIsExactly
      rw [hk, Nat.one_shiftLeft, ← hkv, Nat.and_self]
      exact beq_self_eq_true _
    unfold setAtIndexChecked
    rw [hsolved, hc]
    simp only [Bool.not_true, Bool.and_false]
    unfold setAtIndex
    rw [hexact]
    rfl

/-- C9 witness: cell 0 of the solved board holds exactly `{5}`; writing
3 trips the contract check, writing 5 is a reported no-op. -/
theorem claim9_witness :
    setAtIndexChecked solvedBoard 0 3 = none ∧
    setAtIndexChecked solvedBoard 0 5 = some (solvedBoard, false) :=
  ⟨(claim9 solvedBoard 0 3 (by decide) (by decide) (by decide) (by decide)).1
      (by decide),
    (claim9 solvedBoard 0 5 (by decide) (by decide) (by decide) (by decide)).2
      (by decide)⟩


/-! ## Claim C4

Naked Singles is not idempotent in general: a pass that newly solves a
cell at an already-visited index leaves that cell's value unpropagated,
so a second pass still removes candidates.  It is idempotent once
stable: a pass that reports no removal leaves the board unchanged, and
a following pass reports no removal either. -/

theorem getCell_set_or (s : GameState) (i x j : Nat) :
    getCell (List.set s i x) j = getCell s j ∨ getCell (List.set s i x) j = x := by
  by_cases hj : j = i
  · subst hj
    by_cases hlen : j < List.length s
    · right; simp [getCell, List.getD, List.getElem?_set_self, hlen]
    · left; rw [List.set_eq_of_length_le (Nat.le_of_not_lt hlen)]
  · left; rw [getCell_set_ne hj]

theorem vbsRemoveMany_lt_512 (x values : Nat) : vbsRemoveMany x values < 512 := by
  unfold vbsRemoveMany vbsMASK
  have h1 : not16 values &&& 511 ≤ 511 := Nat.and_le_right
  have h2 : x &&& (not16 values &&& 511) ≤ not16 values &&& 511 := Nat.and_le_right
  omega

theorem forgetManyAtIndex_fst (s : GameState) (j values : Nat) :
    (forgetManyAtIndex s j values).1 = s ∨
    (forgetManyAtIndex s j values).1 =
      List.set s j (vbsRemoveMany (getCell s j) values) := by
  unfold forgetManyAtIndex
  split
  · right; rfl
  · left; rfl

theorem forgetManyAtIndex_wf {s : GameState}
    (hwf : ∀ i, i < 81 → getCell s i < 512) (j values : Nat) :
    ∀ i, i < 81 → getCell (forgetManyAtIndex s j values).1 i < 512 := by
  intro i hi
  rcases forgetManyAtIndex_fst s j values with h | h
  · rw [h]; exact hwf i hi
  · rw [h]
    rcases getCell_set_or s j (vbsRemoveMany (getCell s j) values) i with h2 | h2
    · rw [h2]; exact hwf i hi
    · rw [h2]; exact vbsRemoveMany_lt_512 _ _

theorem containsSome_pow_eq_containsAll (x k : Nat) :
    vbsContainsSome x (2 ^ k) = vbsContainsAll x (2 ^ k) := by
  unfold vbsContainsSome vbsContainsAll
  rw [Nat.and_two_pow]
  have hpos : 0 < 2 ^ k := Nat.pos_pow_of_pos k (by norm_num)
  cases h : x.testBit k <;> simp [Nat.ne_of_gt hpos, Nat.ne_of_lt hpos]

theorem nsForget_fold_wf (cset : Nat) :
    ∀ (peers : List Nat) (acc : GameState × Bool),
      (∀ i, i < 81 → getCell acc.1 i < 512) →
      ∀ i, i < 81 → getCell (peers.foldl (nsForgetStep cset) acc).1 i < 512 := by
  intro peers
  induction peers with
  | nil => intro acc h; exact h
  | cons j rest ih =>
    intro acc h
    rw [List.foldl_cons]
    exact ih _ (forgetManyAtIndex_wf h j cset)

theorem nsForget_fold_silent {k : Nat} :
    ∀ (peers : List Nat) (acc : GameState × Bool),
      (peers.foldl (nsForgetStep (2 ^ k)) acc).2 = false →
      (peers.foldl (nsForgetStep (2 ^ k)) acc).1 = acc.1 ∧ acc.2 = false := by
  intro peers
  induction peers with
  | nil => intro acc h; exact ⟨rfl, h⟩
  | cons j rest ih =>
    intro acc h
    rw [List.foldl_cons] at h ⊢
    obtain ⟨hst, hfl⟩ := ih _ h
    have hflg : acc.2 = false ∧
        vbsContainsAll (getCell acc.1 j) (2 ^ k) = false := by
      have hor : (acc.2 || vbsContainsAll (getCell acc.1 j) (2 ^ k)) = false := hfl
      exact ⟨(Bool.or_eq_false_iff.mp hor).1, (Bool.or_eq_false_iff.mp hor).2⟩
    have hsome : vbsContainsSome (getCell acc.1 j) (2 ^ k) = false := by
      rw [containsSome_pow_eq_containsAll]; exact hflg.2
    have hstate : (nsForgetStep (2 ^ k) acc j).1 = acc.1 := by
      show (forgetManyAtIndex acc.1 j (2 ^ k)).1 = acc.1
      unfold forgetManyAtIndex
      rw [hsome]
      rfl
    rw [hstate] at hst
    exact ⟨hst, hflg.1⟩

theorem ns_fold_silent (g : CellGroups) :
    ∀ (l : List Nat) (acc : Nat × GameState × Bool),
      (∀ u ∈ l, u < 81) →
      (∀ i, i < 81 → getCell acc.2.1 i < 512) →
      (l.foldl (nsStep g) acc).2.2 = false →
      (l.foldl (nsStep g) acc).2.1 = acc.2.1 ∧ acc.2.2 = false := by
  intro l
  induction l with
  | nil => intro acc _ _ h; exact ⟨rfl, h⟩
  | cons u rest ih =>
    intro acc hmem hwf h
    have hu : u < 81 := hmem u (List.mem_cons_self u rest)
    have hrest : ∀ x ∈ rest, x < 81 := fun x hx => hmem x (List.mem_cons_of_mem u hx)
    rw [List.foldl_cons] at h ⊢
    by_cases hobs : ibsContains acc.1 u = true
    · have hstep : nsStep g acc u = acc := by
        unfold nsStep; rw [hobs]; rfl
      rw [hstep] at h ⊢
      exact ih acc hrest hwf h
    · have hobs2 : ibsContains acc.1 u = false := Bool.eq_false_iff.mpr hobs
      by_cases hlen : vbsLen (getCell acc.2.1 u) = 1
      · have hstep : nsStep g acc u =
            (ibsInsert acc.1 u,
             (nsForgetPeers (getCell acc.2.1 u)
               (ibsMembers (peersAt g u false)) acc.2.1).1,
             acc.2.2 ||
               (nsForgetPeers (getCell acc.2.1 u)
                 (ibsMembers (peersAt g u false)) acc.2.1).2) := by
          simp [nsStep, hobs2, hlen, nsForgetPeers]
        obtain ⟨k, hk9, hk⟩ := vbsLen_one_exists (hwf u hu) hlen
        rw [hstep] at h ⊢
        have hwf2 : ∀ i, i < 81 →
            getCell (nsForgetPeers (getCell acc.2.1 u)
              (ibsMembers (peersAt g u false)) acc.2.1).1 i < 512 := by
          intro i hi
          exact nsForget_fold_wf (getCell acc.2.1 u)
            (ibsMembers (peersAt g u false)) (acc.2.1, false) hwf i hi
        obtain ⟨hst, hfl⟩ := ih _ hrest hwf2 h
        have hfl2 : acc.2.2 = false ∧
            (nsForgetPeers (getCell acc.2.1 u)
              (ibsMembers (peersAt g u false)) acc.2.1).2 = false :=
          ⟨(Bool.or_eq_false_iff.mp hfl).1, (Bool.or_eq_false_iff.mp hfl).2⟩
        have hsilent : (nsForgetPeers (getCell acc.2.1 u)
            (ibsMembers (peersAt g u false)) acc.2.1).1 = acc.2.1 := by
          have := hfl2.2
          rw [hk] at this ⊢
          exact (nsForget_fold_silent _ _ this).1
        exact ⟨hst.trans hsilent, hfl2.1⟩
      · have hbeq : (vbsLen (getCell acc.2.1 u) == 1) = false :=
          beq_eq_false_iff_ne.mpr hlen
        have hstep : nsStep g acc u = (ibsInsert acc.1 u, acc.2) := by
          simp [nsStep, hobs2, hbeq]
        rw [hstep] at h ⊢
        exact ih _ hrest hwf h

/-- C4 (counterexample): on `c4Board` the first Naked Singles pass
removes candidates (and newly solves cell 0), and the second pass
removes candidates again — the second run does not report "nothing
removed". -/
theorem claim4_counterexample :
    (playNakedSingles sudokuGroups c4Board).2 = true ∧
    (playNakedSingles sudokuGroups
      ((playNakedSingles sudokuGroups c4Board).1)).2 = true := by
  constructor
  · decide
  · decide

/-- C4 (amended): once Naked Singles reports that nothing was removed,
the board is unchanged and a second run also reports nothing removed
(idempotence at a fixed point; cells carry masked 9-bit payloads). -/
theorem claim4 (g : CellGroups) (s : GameState)
    (hwf : ∀ i, i < 81 → getCell s i < 512)
    (h : (playNakedSingles g s).2 = false) :
    (playNakedSingles g s).1 = s ∧
    (playNakedSingles g ((playNakedSingles g s).1)).2 = false := by
  have hmem : ∀ u ∈ List.range 81, u < 81 := fun u hu => List.mem_range.mp hu
  have h1 := ns_fold_silent g (List.range 81) (0, s, false) hmem hwf h
  have hfst : (playNakedSingles g s).1 = s := h1.1
  exact ⟨hfst, by rw [hfst]; exact h⟩

/-- C4 witness: the open board is already a Naked Singles fixed point. -/
theorem claim4_witness :
    (playNakedSingles sudokuGroups emptyBoard).1 = emptyBoard ∧
    (playNakedSingles sudokuGroups
      ((playNakedSingles sudokuGroups emptyBoard).1)).2 = false :=
  claim4 sudokuGroups emptyBoard (by decide) (by decide)


/-! ## Claim C3

Any board returned as `Ok` by `solve` satisfies the solved invariant:
all 81 cells are singletons and distinct cells of a common group hold
different solved values. -/

theorem solveLoop_ok_isSolved :
    ∀ (fuel : Nat) (g : CellGroups) (stack : List GameState) (last b : GameState),
      solveLoop fuel g stack last = .ok b → isSolved g b = true := by
  intro fuel
  induction fuel with
  | zero =>
    intro g stack last b h
    exact SolveResult.noConfusion h
  | succ n ih =>
    intro g stack last b h
    cases stack with
    | nil => exact SolveResult.noConfusion h
    | cons s rest =>
      rw [solveLoop_step] at h
      split at h
      · next hsol => cases h; exact hsol
      · next hsol =>
        split at h
        · exact ih _ _ _ _ h
        · split at h
          · exact SolveResult.noConfusion h
          · next s1 hs1 =>
            split at h
            · exact ih _ _ _ _ h
            · next hcons1 =>
              split at h
              · next hsol1 => cases h; exact hsol1
              · next hsol1 =>
                split at h
                · exact ih _ _ _ _ h
                · next i hpick =>
                  split at h
                  · exact SolveResult.noConfusion h
                  · next v hv => exact ih _ _ _ _ h

theorem ibsContains_eq_testBit (b j : Nat) :
    ibsContains b j = b.testBit j := by
  unfold ibsContains
  rw [Nat.one_shiftLeft, Nat.and_two_pow]
  cases h : b.testBit j <;> simp [h]

theorem testBit_ibsMASK {j : Nat} (hj : j < 81) : ibsMASK.testBit j = true := by
  unfold ibsMASK
  rw [Nat.testBit_two_pow_sub_one]
  simp [hj]

theorem peers_fold_mono (i j : Nat) :
    ∀ (l : List CellGroup) (acc : Nat), acc.testBit j = true →
      (l.foldl (peersStep i) acc).testBit j = true := by
  intro l
  induction l with
  | nil => intro acc h; exact h
  | cons G rest ih =>
    intro acc h
    rw [List.foldl_cons]
    refine ih _ ?_
    unfold peersStep
    split
    · unfold ibsUnion
      rw [Nat.testBit_lor, h, Bool.true_or]
    · exact h

theorem peers_fold_contrib {i j : Nat} (hj : j < 81) :
    ∀ (l : List CellGroup) (acc : Nat) (G : CellGroup), G ∈ l →
      ibsContains G.indexes i = true → G.indexes.testBit j = true →
      (l.foldl (peersStep i) acc).testBit j = true := by
  intro l
  induction l with
  | nil => intro acc G hG; exact absurd hG (List.not_mem_nil G)
  | cons W rest ih =>
    intro acc G hG hGi hGj
    rw [List.foldl_cons]
    rcases List.mem_cons.mp hG with hW | hG2
    · subst hW
      refine peers_fold_mono i j rest _ ?_
      unfold peersStep
      rw [hGi]
      simp only [if_true]
      unfold ibsUnion
      rw [Nat.testBit_lor, Nat.testBit_land, hGj, testBit_ibsMASK hj]
      simp
    · exact ih _ G hG2 hGi hGj

theorem mem_peers_of_group {g : CellGroups} {G : CellGroup} {i j : Nat}
    (hG : G ∈ g.groups) (hi : ibsContains G.indexes i = true)
    (hj : ibsContains G.indexes j = true) (hne : j ≠ i) (hj81 : j < 81) :
    j ∈ ibsMembers (peersAt g i false) := by
  unfold ibsMembers
  refine List.mem_filter.mpr ⟨List.mem_range.mpr hj81, ?_⟩
  unfold peersAt
  simp only [Bool.false_eq_true, if_false]
  rw [ibsContains_eq_testBit]
  unfold ibsRemove
  rw [Nat.testBit_land, Nat.testBit_land]
  have h1 : (g.groups.foldl (peersStep i) 0).testBit j = true := by
    rw [ibsContains_eq_testBit] at hj
    exact peers_fold_contrib hj81 g.groups 0 G hG hi hj
  have h2 : (not128 (1 <<< i)).testBit j = true := by
    unfold not128
    rw [Nat.one_shiftLeft, Nat.testBit_xor, Nat.testBit_two_pow_sub_one,
      Nat.testBit_two_pow]
    have hj128 : j < 128 := by omega
    simp [hj128, Ne.symm hne]
  rw [h1, h2, testBit_ibsMASK hj81]
  rfl

theorem isSolved_parts {g : CellGroups} {s : GameState}
    (h : isSolved g s = true) :
    (∀ i, i < 81 → vbsLen (getCell s i) = 1) ∧
    (∀ i, i < 81 → ∀ j ∈ ibsMembers (peersAt g i false), i < j →
      solvedValueAt s j ≠ solvedValueAt s i) := by
  unfold isSolved at h
  obtain ⟨h1, h2⟩ := Bool.and_eq_true _ _ |>.mp h
  constructor
  · intro i hi
    have := List.all_eq_true.mp h1 i (List.mem_range.mpr hi)
    exact beq_iff_eq.mp this
  · intro i hi j hjmem hij
    have hall := List.all_eq_true.mp h2 i (List.mem_range.mpr hi)
    have hb := List.all_eq_true.mp hall j hjmem
    rcases Bool.or_eq_true _ _ |>.mp hb with hlt | hne
    · rw [Bool.not_eq_true', decide_eq_false_iff_not] at hlt
      exact absurd hij hlt
    · rw [Bool.not_eq_true', beq_eq_false_iff_ne] at hne
      exact hne

/-- C3: every board returned as `Ok` by the solver satisfies the solved
invariant — each of the 81 cells has exactly one candidate, and distinct
cells of any group of the topology hold different solved values. -/
theorem claim3 (fuel : Nat) (g : CellGroups) (stack : List GameState)
    (last b : GameState) (h : solveLoop fuel g stack last = .ok b) :
    (∀ i, i < 81 → vbsLen (getCell b i) = 1) ∧
    (∀ G, G ∈ g.groups → ∀ i j, i < 81 → j < 81 →
      ibsContains G.indexes i = true → ibsContains G.indexes j = true →
      i ≠ j → solvedValueAt b i ≠ solvedValueAt b j) := by
  have hsol := solveLoop_ok_isSolved fuel g stack last b h
  obtain ⟨h1, h2⟩ := isSolved_parts hsol
  refine ⟨h1, ?_⟩
  intro G hG i j hi81 hj81 hgi hgj hne
  rcases Nat.lt_trichotomy i j with hlt | heq | hgt
  · exact (h2 i hi81 j (mem_peers_of_group hG hgi hgj (Ne.symm hne) hj81) hlt).symm
  · exact absurd heq hne
  · exact h2 j hj81 i (mem_peers_of_group hG hgj hgi hne hi81) hgt

/-- C3 witness: the solved example board is returned as `Ok` by one
solver iteration; its first two cells are solved and differ. -/
theorem claim3_witness :
    vbsLen (getCell solvedBoard 0) = 1 ∧
    solvedValueAt solvedBoard 0 ≠ solvedValueAt solvedBoard 1 :=
  have h := claim3 1 sudokuGroups [solvedBoard] solvedBoard solvedBoard (by decide)
  ⟨h.1 0 (by decide),
    h.2 (rowGroup 0) (by decide) 0 1 (by decide) (by decide) (by decide)
      (by decide) (by decide)⟩


/-! ## Claim C7

The fork step: the fork value is the fork cell's lowest remaining
candidate (`iter_candidates().next()` yields the lowest set bit); the
reduced board (fork value forgotten, no propagation) is pushed first and
the forked board (fork value placed and propagated) is pushed on top of
it only if it passes `is_consistent`. -/

theorem vbsCandidates_head_min {s v : Nat}
    (h : (vbsCandidates s).head? = some v) :
    vbsContains s v = true ∧ ∀ w, 1 ≤ w → vbsContains s w = true → v ≤ w := by
  unfold vbsCandidates at h
  rw [List.head?_map] at h
  rcases hk : ((List.range 9).filter (fun k => s.testBit k)).head? with _ | k
  · rw [hk] at h; exact Option.noConfusion h
  · rw [hk] at h
    have hv : v = k + 1 := (Option.some_inj.mp h).symm
    have hkmem : k ∈ (List.range 9).filter (fun k => s.testBit k) :=
      List.mem_of_mem_head? (by rw [hk]; rfl)
    have hk9 : k < 9 := List.mem_range.mp (List.mem_filter.mp hkmem).1
    have hkbit : s.testBit k = true := by
      have := (List.mem_filter.mp hkmem).2; simpa using this
    have hmin : ∀ m ∈ (List.range 9).filter (fun k => s.testBit k), k ≤ m := by
      obtain ⟨tl, htl⟩ : ∃ tl,
          (List.range 9).filter (fun k => s.testBit k) = k :: tl := by
        rcases hl : (List.range 9).filter (fun k => s.testBit k) with _ | ⟨x, tl⟩
        · rw [hl] at hk; exact Option.noConfusion hk
        · rw [hl] at hk
          exact ⟨tl, by rw [Option.some_inj.mp hk]⟩
      have hpw : ((List.range 9).filter (fun k => s.testBit k)).Pairwise (· < ·) :=
        (List.pairwise_lt_range 9).sublist (List.filter_sublist _)
      rw [htl] at hpw ⊢
      intro m hm
      rcases List.mem_cons.mp hm with hmk | hmtl
      · omega
      · exact Nat.le_of_lt ((List.pairwise_cons.mp hpw).1 m hmtl)
    constructor
    · rw [vbsContains_eq_testBit, hv]
      simpa using hkbit
    · intro w hw hcw
      rw [vbsContains_eq_testBit] at hcw
      by_cases hw9 : w - 1 < 9
      · have hwmem : w - 1 ∈ (List.range 9).filter (fun k => s.testBit k) :=
          List.mem_filter.mpr ⟨List.mem_range.mpr hw9, by simpa using hcw⟩
        have := hmin (w - 1) hwmem
        omega
      · omega

/-- C7: one fork step of the search.  From a popped board `s` that is
unsolved and consistent, whose propagation yields the unsolved,
consistent board `s1` with fork cell `i` and lowest candidate `v`, the
loop continues with the reduced board pushed below the forked board (the
latter only if consistent); `v` belongs to the fork cell's candidates
and is minimal among them. -/
theorem claim7 (fuel : Nat) (g : CellGroups) (s : GameState)
    (stack : List GameState) (last s1 : GameState) (i v : Nat)
    (h1 : isSolved g s = false) (h2 : isConsistent g s = true)
    (h3 : solvingLoop (fuel + 1) g s = some s1)
    (h4 : isConsistent g s1 = true) (h5 : isSolved g s1 = false)
    (h6 : pickIndexToForkFrom g s1 = some i)
    (h7 : (vbsCandidates (getCell s1 i)).head? = some v) :
    solveLoop (fuel + 1) g (s :: stack) last =
      solveLoop fuel g
        ((if isConsistent g ((placeAndPropagateAtIndex g s1 i v).1) = true
          then [(placeAndPropagateAtIndex g s1 i v).1] else []) ++
          (forgetAtIndex s1 i v).1 :: stack) s ∧
    vbsContains (getCell s1 i) v = true ∧
    (∀ w, 1 ≤ w → vbsContains (getCell s1 i) w = true → v ≤ w) := by
  refine ⟨?_, (vbsCandidates_head_min h7).1, (vbsCandidates_head_min h7).2⟩
  rw [solveLoop_step]
  simp only [h1, h2, h3, h4, h5, h6, h7, Bool.not_true, Bool.false_eq_true,
    if_false]
  by_cases hf : isConsistent g ((placeAndPropagateAtIndex g s1 i v).1) = true
  · simp [hf]
  · have hf2 : isConsistent g ((placeAndPropagateAtIndex g s1 i v).1) = false :=
      Bool.eq_false_iff.mpr hf
    simp [hf2]

theorem empty_naked_singles :
    playNakedSingles sudokuGroups emptyBoard = (emptyBoard, false) := by decide

theorem empty_hidden_col :
    playHiddenSingles sudokuGroups .standardColumn emptyBoard =
      (emptyBoard, false) := by decide

theorem empty_hidden_row :
    playHiddenSingles sudokuGroups .standardRow emptyBoard =
      (emptyBoard, false) := by decide

theorem empty_hidden_block :
    playHiddenSingles sudokuGroups .standardBlock emptyBoard =
      (emptyBoard, false) := by decide

theorem empty_hidden_custom :
    playHiddenSingles sudokuGroups .custom emptyBoard = (emptyBoard, false) := by
  decide

theorem empty_twins_col :
    playNakedTwins sudokuGroups .standardColumn emptyBoard =
      .ok (emptyBoard, false) := by decide

theorem empty_twins_row :
    playNakedTwins sudokuGroups .standardRow emptyBoard =
      .ok (emptyBoard, false) := by decide

theorem empty_twins_block :
    playNakedTwins sudokuGroups .standardBlock emptyBoard =
      .ok (emptyBoard, false) := by decide

theorem empty_twins_custom :
    playNakedTwins sudokuGroups .custom emptyBoard = .ok (emptyBoard, false) := by
  decide

theorem empty_iter_done :
    solvingIter sudokuGroups emptyBoard = (emptyBoard, .done) := by
  simp only [solvingIter, empty_naked_singles, empty_hidden_col,
    empty_hidden_row, empty_hidden_block, empty_hidden_custom, empty_twins_col,
    empty_twins_row, empty_twins_block, empty_twins_custom]
  rfl

theorem empty_solvingLoop_one :
    solvingLoop 1 sudokuGroups emptyBoard = some emptyBoard := by
  rw [solvingLoop, empty_iter_done]

/-- C7 witness: forking the all-candidates-open board at cell 0 with
value 1. -/
theorem claim7_witness :
    (solveLoop 1 sudokuGroups [emptyBoard] emptyBoard =
      solveLoop 0 sudokuGroups
        ((if isConsistent sudokuGroups
            ((placeAndPropagateAtIndex sudokuGroups emptyBoard 0 1).1) = true
          then [(placeAndPropagateAtIndex sudokuGroups emptyBoard 0 1).1]
          else []) ++
          (forgetAtIndex emptyBoard 0 1).1 :: []) emptyBoard) ∧
    vbsContains (getCell emptyBoard 0) 1 = true ∧
    (∀ w, 1 ≤ w → vbsContains (getCell emptyBoard 0) w = true → 1 ≤ w) :=
  claim7 0 sudokuGroups emptyBoard [] emptyBoard emptyBoard 0 1
    (by decide) (by decide) empty_solvingLoop_one (by decide) (by decide)
    (by decide) (by decide)


/-! ## Claim C10

`solve` never mutates the caller's board: the input slot of the store is
only read once (to clone it); every write targets a slot allocated
during the call or a slot popped from the search stack, all distinct
from the input slot. -/

/-- Unfolding equation for one iteration of the store-level loop,
with the intermediate stores written out. -/
theorem solveLoopH_step (fuel : Nat) (g : CellGroups) (σ : Store) (h : Nat)
    (stackT : List Nat) (hL : Nat) :
    solveLoopH (fuel + 1) g σ (h :: stackT) hL =
      (if isSolved g (readB σ h) then (((allocB σ (readB σ h)).1), .ok (readB σ h))
      else if !isConsistent g (readB σ h) then solveLoopH fuel g ((allocB σ (readB σ h)).1) stackT ((allocB σ (readB σ h)).2)
      else
        match solvingLoop (fuel + 1) g (readB σ h) with
        | none => (((allocB σ (readB σ h)).1), .outOfFuel (readB σ h))
        | some s1 =>
          if !isConsistent g s1 then solveLoopH fuel g (writeB ((allocB σ (readB σ h)).1) h s1) stackT ((allocB σ (readB σ h)).2)
          else if isSolved g s1 then ((writeB ((allocB σ (readB σ h)).1) h s1), .ok s1)
          else
            match pickIndexToForkFrom g s1 with
            | none => solveLoopH fuel g (writeB ((allocB σ (readB σ h)).1) h s1) stackT ((allocB σ (readB σ h)).2)
            | some i =>
              match (vbsCandidates (getCell s1 i)).head? with
              | none => ((writeB ((allocB σ (readB σ h)).1) h s1), .panicked)
              | some v =>
                solveLoopH fuel g ((allocB (writeB (writeB ((allocB (writeB ((allocB σ (readB σ h)).1) h s1) s1).1) ((allocB (writeB ((allocB σ (readB σ h)).1) h s1) s1).2) ((placeAndPropagateAtIndex g s1 i v).1)) h ((forgetAtIndex s1 i v).1)) ((forgetAtIndex s1 i v).1)).1)
                  (if isConsistent g (readB ((allocB (writeB (writeB ((allocB (writeB ((allocB σ (readB σ h)).1) h s1) s1).1) ((allocB (writeB ((allocB σ (readB σ h)).1) h s1) s1).2) ((placeAndPropagateAtIndex g s1 i v).1)) h ((forgetAtIndex s1 i v).1)) ((forgetAtIndex s1 i v).1)).1) ((allocB (writeB ((allocB σ (readB σ h)).1) h s1) s1).2)) then ((allocB (writeB ((allocB σ (readB σ h)).1) h s1) s1).2) :: ((allocB (writeB (writeB ((allocB (writeB ((allocB σ (readB σ h)).1) h s1) s1).1) ((allocB (writeB ((allocB σ (readB σ h)).1) h s1) s1).2) ((placeAndPropagateAtIndex g s1 i v).1)) h ((forgetAtIndex s1 i v).1)) ((forgetAtIndex s1 i v).1)).2) :: stackT
                   else ((allocB (writeB (writeB ((allocB (writeB ((allocB σ (readB σ h)).1) h s1) s1).1) ((allocB (writeB ((allocB σ (readB σ h)).1) h s1) s1).2) ((placeAndPropagateAtIndex g s1 i v).1)) h ((forgetAtIndex s1 i v).1)) ((forgetAtIndex s1 i v).1)).2) :: stackT) ((allocB σ (readB σ h)).2)) := rfl

theorem readB_append {σ : Store} {h : Nat} (hlt : h < σ.length)
    (b : GameState) : readB (σ ++ [b]) h = readB σ h := by
  unfold readB
  simp [List.getD, List.getElem?_append_left hlt]

theorem readB_set_ne {σ : Store} {hw h : Nat} (hne : hw ≠ h) (b : GameState) :
    readB (List.set σ hw b) h = readB σ h := by
  unfold readB
  simp [List.getD, List.getElem?_set_ne hne]

theorem length_writeB (σ : Store) (w : Nat) (b : GameState) :
    List.length (writeB σ w b) = List.length σ := List.length_set σ w b

theorem length_allocB (σ : Store) (b : GameState) :
    List.length ((allocB σ b).1) = List.length σ + 1 := by
  show (σ ++ [b]).length = σ.length + 1
  rw [List.length_append]
  rfl

theorem allocB_snd (σ : Store) (b : GameState) :
    (allocB σ b).2 = List.length σ := rfl

theorem solveLoopH_frame (hIn : Nat) :
    ∀ (fuel : Nat) (g : CellGroups) (σ : Store) (stack : List Nat) (hL : Nat),
      hIn < List.length σ → (∀ h ∈ stack, h ≠ hIn) →
      readB (solveLoopH fuel g σ stack hL).1 hIn = readB σ hIn := by
  intro fuel
  induction fuel with
  | zero => intro g σ stack hL hlen hst; rfl
  | succ n ih =>
    intro g σ stack hL hlen hst
    cases stack with
    | nil => rfl
    | cons h rest =>
      have hhne : h ≠ hIn := hst h (List.mem_cons_self h rest)
      have hrest : ∀ x ∈ rest, x ≠ hIn :=
        fun x hx => hst x (List.mem_cons_of_mem h hx)
      have e0 : readB ((allocB σ (readB σ h)).1) hIn = readB σ hIn := readB_append hlen _
      have l0 : hIn < List.length ((allocB σ (readB σ h)).1) := by rw [length_allocB]; omega
      rw [solveLoopH_step]
      split
      · exact e0
      · split
        · exact (ih g _ rest _ l0 hrest).trans e0
        · split
          · exact e0
          · next s1 hs1 =>
            have e1 : readB (writeB ((allocB σ (readB σ h)).1) h s1) hIn = readB σ hIn :=
              (readB_set_ne hhne s1).trans e0
            have l1 : hIn < List.length (writeB ((allocB σ (readB σ h)).1) h s1) := by rw [length_writeB]; exact l0
            split
            · exact (ih g _ rest _ l1 hrest).trans e1
            · split
              · exact e1
              · split
                · exact (ih g _ rest _ l1 hrest).trans e1
                · next i hpick =>
                  split
                  · exact e1
                  · next v hv =>
                    have e2 : readB ((allocB (writeB ((allocB σ (readB σ h)).1) h s1) s1).1) hIn = readB σ hIn :=
                      (readB_append l1 s1).trans e1
                    have l2 : hIn < List.length ((allocB (writeB ((allocB σ (readB σ h)).1) h s1) s1).1) := by
                      rw [length_allocB]; omega
                    have fF : ((allocB (writeB ((allocB σ (readB σ h)).1) h s1) s1).2) ≠ hIn := by
                      rw [allocB_snd, length_writeB, length_allocB]; omega
                    have e3 : readB (writeB ((allocB (writeB ((allocB σ (readB σ h)).1) h s1) s1).1) ((allocB (writeB ((allocB σ (readB σ h)).1) h s1) s1).2) ((placeAndPropagateAtIndex g s1 i v).1)) hIn = readB σ hIn :=
                      (readB_set_ne fF _).trans e2
                    have l3 : hIn < List.length (writeB ((allocB (writeB ((allocB σ (readB σ h)).1) h s1) s1).1) ((allocB (writeB ((allocB σ (readB σ h)).1) h s1) s1).2) ((placeAndPropagateAtIndex g s1 i v).1)) := by
                      rw [length_writeB]; exact l2
                    have e4 : readB (writeB (writeB ((allocB (writeB ((allocB σ (readB σ h)).1) h s1) s1).1) ((allocB (writeB ((allocB σ (readB σ h)).1) h s1) s1).2) ((placeAndPropagateAtIndex g s1 i v).1)) h ((forgetAtIndex s1 i v).1)) hIn = readB σ hIn :=
                      (readB_set_ne hhne _).trans e3
                    have l4 : hIn < List.length (writeB (writeB ((allocB (writeB ((allocB σ (readB σ h)).1) h s1) s1).1) ((allocB (writeB ((allocB σ (readB σ h)).1) h s1) s1).2) ((placeAndPropagateAtIndex g s1 i v).1)) h ((forgetAtIndex s1 i v).1)) := by
                      rw [length_writeB]; exact l3
                    have e5 : readB ((allocB (writeB (writeB ((allocB (writeB ((allocB σ (readB σ h)).1) h s1) s1).1) ((allocB (writeB ((allocB σ (readB σ h)).1) h s1) s1).2) ((placeAndPropagateAtIndex g s1 i v).1)) h ((forgetAtIndex s1 i v).1)) ((forgetAtIndex s1 i v).1)).1) hIn = readB σ hIn :=
                      (readB_append l4 _).trans e4
                    have l5 : hIn < List.length ((allocB (writeB (writeB ((allocB (writeB ((allocB σ (readB σ h)).1) h s1) s1).1) ((allocB (writeB ((allocB σ (readB σ h)).1) h s1) s1).2) ((placeAndPropagateAtIndex g s1 i v).1)) h ((forgetAtIndex s1 i v).1)) ((forgetAtIndex s1 i v).1)).1) := by
                      rw [length_allocB]; omega
                    have fR : ((allocB (writeB (writeB ((allocB (writeB ((allocB σ (readB σ h)).1) h s1) s1).1) ((allocB (writeB ((allocB σ (readB σ h)).1) h s1) s1).2) ((placeAndPropagateAtIndex g s1 i v).1)) h ((forgetAtIndex s1 i v).1)) ((forgetAtIndex s1 i v).1)).2) ≠ hIn := by
                      rw [allocB_snd, length_writeB, length_writeB,
                        length_allocB, length_writeB, length_allocB]
                      omega
                    split
                    · refine (ih g _ _ _ l5 ?_).trans e5
                      intro x hx
                      rcases List.mem_cons.mp hx with hx1 | hx2
                      · rw [hx1]; exact fF
                      · rcases List.mem_cons.mp hx2 with hx3 | hx4
                        · rw [hx3]; exact fR
                        · exact hrest x hx4
                    · refine (ih g _ _ _ l5 ?_).trans e5
                      intro x hx
                      rcases List.mem_cons.mp hx with hx1 | hx2
                      · rw [hx1]; exact fR
                      · exact hrest x hx2

/-- C10: after `solve` runs over the store, the input slot holds exactly
the board it held before the call, for any fuel and outcome. -/
theorem claim10 (fuel : Nat) (g : CellGroups) (σ : Store) (hIn : Nat)
    (hlen : hIn < List.length σ) :
    readB (solveH fuel g σ hIn).1 hIn = readB σ hIn := by
  unfold solveH
  simp only []
  have e0 : readB ((allocB σ (readB σ hIn)).1) hIn = readB σ hIn :=
    readB_append hlen _
  have l0 : hIn < List.length ((allocB σ (readB σ hIn)).1) := by
    rw [length_allocB]; omega
  have e1 : readB ((allocB ((allocB σ (readB σ hIn)).1)
      (readB ((allocB σ (readB σ hIn)).1) ((allocB σ (readB σ hIn)).2))).1)
      hIn = readB σ hIn := (readB_append l0 _).trans e0
  have l1 : hIn < List.length ((allocB ((allocB σ (readB σ hIn)).1)
      (readB ((allocB σ (readB σ hIn)).1) ((allocB σ (readB σ hIn)).2))).1) := by
    rw [length_allocB]; omega
  refine (solveLoopH_frame hIn fuel g _ _ _ l1 ?_).trans e1
  intro x hx
  rcases List.mem_cons.mp hx with hx1 | hx2
  · rw [hx1, allocB_snd, length_allocB]
    omega
  · exact absurd hx2 (List.not_mem_nil x)

/-- C10 witness: solving from a store holding the solved board leaves
slot 0 untouched. -/
theorem claim10_witness :
    readB (solveH 1 sudokuGroups [solvedBoard] 0).1 0 =
      readB [solvedBoard] 0 :=
  claim10 1 sudokuGroups [solvedBoard] 0 (by decide)


/-! ## Claim C8

Branch selection: `pick_index_to_fork_from` equals the declarative
reading of the specification (`pickSpec`), and when no cell has two or
more candidates it returns `none`. -/

theorem firstMinBy_mem (f : Nat → Nat) :
    ∀ (l : List Nat) (y : Nat), firstMinBy f l = some y → y ∈ l := by
  intro l
  induction l with
  | nil => intro y h; exact Option.noConfusion h
  | cons x rest ih =>
    intro y h
    rw [firstMinBy] at h
    split at h
    · exact (Option.some_inj.mp h) ▸ List.mem_cons_self x rest
    · next z hm =>
      split at h
      · exact (Option.some_inj.mp h) ▸ List.mem_cons_self x rest
      · exact List.mem_cons_of_mem x ((Option.some_inj.mp h) ▸ ih z hm)

theorem firstMinBy_ne_none (f : Nat → Nat) (x : Nat) (l : List Nat) :
    firstMinBy f (x :: l) ≠ none := by
  rw [firstMinBy]
  split
  · simp
  · split <;> simp

theorem pickScanGroup_decomp (s : GameState) :
    ∀ (peers : List Nat) (acc : Nat × Nat × Nat),
      peers.foldl (pickCellStep s) acc =
        (acc.1 + ((peers.filter (fun j => 2 ≤ vbsLen (getCell s j))).map
          (fun j => vbsLen (getCell s j))).sum,
         (peers.filter (fun j => 2 ≤ vbsLen (getCell s j))).foldl
           (minCellStep s) acc.2) := by
  intro peers
  induction peers with
  | nil => intro acc; simp
  | cons j rest ih =>
    intro acc
    rw [List.foldl_cons]
    by_cases h : vbsLen (getCell s j) ≤ 1
    · have hfil : (j :: rest).filter (fun j => 2 ≤ vbsLen (getCell s j)) =
          rest.filter (fun j => 2 ≤ vbsLen (getCell s j)) := by
        rw [List.filter_cons]
        have hd : decide (2 ≤ vbsLen (getCell s j)) = false := by
          simp
          omega
        simp [hd]
      have hstep : pickCellStep s acc j = acc := by
        simp [pickCellStep, h]
      rw [hstep, hfil]
      exact ih acc
    · have hfil : (j :: rest).filter (fun j => 2 ≤ vbsLen (getCell s j)) =
          j :: rest.filter (fun j => 2 ≤ vbsLen (getCell s j)) := by
        rw [List.filter_cons]
        have hd : decide (2 ≤ vbsLen (getCell s j)) = true := by
          simp
          omega
        simp [hd]
      have hstep : pickCellStep s acc j =
          (acc.1 + vbsLen (getCell s j), minCellStep s acc.2 j) := by
        simp [pickCellStep, h, minCellStep]
      rw [hstep, hfil, ih, List.map_cons, List.sum_cons, List.foldl_cons]
      simp [Nat.add_assoc]

theorem minCellStep_fold_char (s : GameState) :
    ∀ (l : List Nat) (d s0 : Nat),
      l.foldl (minCellStep s) (d, s0) =
        match firstMinBy (fun j => vbsLen (getCell s j)) l with
        | none => (d, s0)
        | some y =>
          if vbsLen (getCell s y) < s0 then (y, vbsLen (getCell s y))
          else (d, s0) := by
  intro l
  induction l with
  | nil => intro d s0; rfl
  | cons x rest ih =>
    intro d s0
    rw [List.foldl_cons, firstMinBy]
    by_cases hx : vbsLen (getCell s x) < s0
    · have hstep : minCellStep s (d, s0) x = (x, vbsLen (getCell s x)) := by
        simp [minCellStep, hx]
      rw [hstep, ih]
      cases hm : firstMinBy (fun j => vbsLen (getCell s j)) rest with
      | none => simp [hx]
      | some z =>
        by_cases hzx : vbsLen (getCell s z) < vbsLen (getCell s x)
        · have hle : (vbsLen (getCell s x) ≤ vbsLen (getCell s z)) = False := by
            simp
            omega
          simp only [hle, if_false]
          have hz0 : vbsLen (getCell s z) < s0 := by omega
          simp [hzx, hz0]
        · have hle : vbsLen (getCell s x) ≤ vbsLen (getCell s z) := by omega
          simp [hle, hzx, hx]
    · have hstep : minCellStep s (d, s0) x = (d, s0) := by
        simp [minCellStep, hx]
      rw [hstep, ih]
      cases hm : firstMinBy (fun j => vbsLen (getCell s j)) rest with
      | none => simp [hx]
      | some z =>
        by_cases hzx : vbsLen (getCell s z) < vbsLen (getCell s x)
        · have hle : (vbsLen (getCell s x) ≤ vbsLen (getCell s z)) = False := by
            simp
            omega
          simp [hle]
        · have hle : vbsLen (getCell s x) ≤ vbsLen (getCell s z) := by omega
          have hz0 : ¬ vbsLen (getCell s z) < s0 := by omega
          simp [hle, hx, hz0]

theorem minAnchorStep_fold_char (g : CellGroups) (s : GameState) :
    ∀ (l : List Nat) (d s0 : Nat),
      l.foldl (minAnchorStep g s) (d, s0) =
        match firstMinBy (peerSumSpec g s) l with
        | none => (d, s0)
        | some y =>
          if peerSumSpec g s y < s0 then
            ((pickScanGroup s (ibsMembers (peersAt g y true))).2.1,
              peerSumSpec g s y)
          else (d, s0) := by
  intro l
  induction l with
  | nil => intro d s0; rfl
  | cons x rest ih =>
    intro d s0
    rw [List.foldl_cons, firstMinBy]
    by_cases hx : peerSumSpec g s x < s0
    · have hstep : minAnchorStep g s (d, s0) x =
          ((pickScanGroup s (ibsMembers (peersAt g x true))).2.1,
            peerSumSpec g s x) := by
        simp [minAnchorStep, hx]
      rw [hstep, ih]
      cases hm : firstMinBy (peerSumSpec g s) rest with
      | none => simp [hx]
      | some z =>
        by_cases hzx : peerSumSpec g s z < peerSumSpec g s x
        · have hle : (peerSumSpec g s x ≤ peerSumSpec g s z) = False := by
            simp
            omega
          have hz0 : peerSumSpec g s z < s0 := by omega
          simp [hle, hzx, hz0]
        · have hle : peerSumSpec g s x ≤ peerSumSpec g s z := by omega
          simp [hle, hzx, hx]
    · have hstep : minAnchorStep g s (d, s0) x = (d, s0) := by
        simp [minAnchorStep, hx]
      rw [hstep, ih]
      cases hm : firstMinBy (peerSumSpec g s) rest with
      | none => simp [hx]
      | some z =>
        by_cases hzx : peerSumSpec g s z < peerSumSpec g s x
        · have hle : (peerSumSpec g s x ≤ peerSumSpec g s z) = False := by
            simp
            omega
          simp [hle]
        · have hle : peerSumSpec g s x ≤ peerSumSpec g s z := by omega
          have hz0 : ¬ peerSumSpec g s z < s0 := by omega
          simp [hle, hx, hz0]

theorem pickScanGroup_fst (g : CellGroups) (s : GameState) (i : Nat) :
    (pickScanGroup s (ibsMembers (peersAt g i true))).1 = peerSumSpec g s i := by
  unfold pickScanGroup peerSumSpec
  rw [pickScanGroup_decomp]
  simp

theorem pickStep_filter (g : CellGroups) (s : GameState) :
    ∀ (l : List Nat) (sm : Nat × Nat),
      l.foldl (pickStep g s) sm =
        (l.filter (fun i => 0 < peerSumSpec g s i)).foldl
          (minAnchorStep g s) sm := by
  intro l
  induction l with
  | nil => intro sm; rfl
  | cons x rest ih =>
    intro sm
    rw [List.foldl_cons]
    by_cases h0 : 0 < peerSumSpec g s x
    · have hfil : (x :: rest).filter (fun i => 0 < peerSumSpec g s i) =
          x :: rest.filter (fun i => 0 < peerSumSpec g s i) := by
        rw [List.filter_cons]
        simp [h0]
      have hstep : pickStep g s sm x = minAnchorStep g s sm x := by
        simp only [pickStep]
        rw [pickScanGroup_fst]
        by_cases hlt : peerSumSpec g s x < sm.2
        · simp [minAnchorStep, hlt, h0]
        · simp [minAnchorStep, hlt]
      rw [hstep, hfil, List.foldl_cons]
      exact ih _
    · have hfil : (x :: rest).filter (fun i => 0 < peerSumSpec g s i) =
          rest.filter (fun i => 0 < peerSumSpec g s i) := by
        rw [List.filter_cons]
        simp [h0]
      have hstep : pickStep g s sm x = sm := by
        simp only [pickStep]
        rw [pickScanGroup_fst]
        simp [h0]
      rw [hstep, hfil]
      exact ih _

theorem vbsLen_le_9 (c : Nat) : vbsLen c ≤ 9 := by
  unfold vbsLen
  calc (List.range 9).countP (fun k => (c &&& vbsMASK).testBit k)
      ≤ (List.range 9).length := List.countP_le_length _
    _ = 9 := List.length_range 9

theorem peerSumSpec_lt_usizeMAX (g : CellGroups) (s : GameState) (i : Nat) :
    peerSumSpec g s i < usizeMAX := by
  unfold peerSumSpec
  have hlen : ((ibsMembers (peersAt g i true)).filter
      (fun j => 2 ≤ vbsLen (getCell s j))).length ≤ 81 := by
    calc ((ibsMembers (peersAt g i true)).filter
          (fun j => 2 ≤ vbsLen (getCell s j))).length
        ≤ (ibsMembers (peersAt g i true)).length := List.length_filter_le _ _
      _ ≤ (List.range 81).length := List.length_filter_le _ _
      _ = 81 := List.length_range 81
  have hsum : (((ibsMembers (peersAt g i true)).filter
      (fun j => 2 ≤ vbsLen (getCell s j))).map
        (fun j => vbsLen (getCell s j))).sum ≤
      (((ibsMembers (peersAt g i true)).filter
        (fun j => 2 ≤ vbsLen (getCell s j))).map
          (fun j => vbsLen (getCell s j))).length * 9 := by
    apply List.sum_le_card_nsmul
    intro x hx
    obtain ⟨j, _, hj⟩ := List.mem_map.mp hx
    rw [← hj]
    exact vbsLen_le_9 _
  rw [List.length_map] at hsum
  have : usizeMAX = 2 ^ 64 - 1 := rfl
  have h64 : (730 : Nat) ≤ 2 ^ 64 - 1 := by norm_num
  omega

theorem vbsLen_lt_usizeMAX (c : Nat) : vbsLen c < usizeMAX := by
  have h1 := vbsLen_le_9 c
  have : usizeMAX = 2 ^ 64 - 1 := rfl
  have h64 : (10 : Nat) ≤ 2 ^ 64 - 1 := by norm_num
  omega

theorem trackedCellSpec_of_pos {g : CellGroups} {s : GameState} {i : Nat}
    (hpos : 0 < peerSumSpec g s i) :
    (pickScanGroup s (ibsMembers (peersAt g i true))).2.1 =
      ((trackedCellSpec g s i).getD 0) ∧ (trackedCellSpec g s i).isSome := by
  have hne : (ibsMembers (peersAt g i true)).filter
      (fun j => 2 ≤ vbsLen (getCell s j)) ≠ [] := by
    intro hnil
    unfold peerSumSpec at hpos
    rw [hnil] at hpos
    simp at hpos
  unfold pickScanGroup trackedCellSpec
  rw [pickScanGroup_decomp]
  simp only []
  cases hm : firstMinBy (fun j => vbsLen (getCell s j))
      ((ibsMembers (peersAt g i true)).filter
        (fun j => 2 ≤ vbsLen (getCell s j))) with
  | none =>
    exfalso
    rcases hl : (ibsMembers (peersAt g i true)).filter
        (fun j => 2 ≤ vbsLen (getCell s j)) with _ | ⟨x, tl⟩
    · exact hne hl
    · rw [hl] at hm
      exact firstMinBy_ne_none _ x tl hm
  | some y =>
    rw [minCellStep_fold_char, hm]
    have := vbsLen_lt_usizeMAX (getCell s y)
    simp [this]

/-- C8: `pick_index_to_fork_from` computes exactly the specification's
selection — the first-minimal positive peer-set sum picks the anchor,
and within that peer set the first cell with the fewest (at least two)
candidates is the fork point — and when no cell on the board has two or
more candidates it returns `none`. -/
theorem claim8 (g : CellGroups) (s : GameState) :
    pickIndexToForkFrom g s = pickSpec g s ∧
    ((∀ i, i < 81 → vbsLen (getCell s i) ≤ 1) →
      pickIndexToForkFrom g s = none) := by
  have hmain : pickIndexToForkFrom g s = pickSpec g s := by
    unfold pickIndexToForkFrom pickSpec
    rw [pickStep_filter, minAnchorStep_fold_char]
    cases hm : firstMinBy (peerSumSpec g s)
        ((List.range 81).filter (fun i => 0 < peerSumSpec g s i)) with
    | none => simp
    | some y =>
      have hylt := peerSumSpec_lt_usizeMAX g s y
      have hymem := firstMinBy_mem (peerSumSpec g s) _ y hm
      have hypos : 0 < peerSumSpec g s y := by
        have := (List.mem_filter.mp hymem).2
        simpa using this
      obtain ⟨htr, hsome⟩ := trackedCellSpec_of_pos hypos
      simp only [hylt, if_true, Option.bind]
      have hne2 : peerSumSpec g s y ≠ usizeMAX := Nat.ne_of_lt hylt
      simp only [bne_iff_ne, ne_eq, hne2, not_false_iff, if_true]
      rcases ho : trackedCellSpec g s y with _ | j
      · rw [ho] at hsome; exact absurd hsome (by simp)
      · rw [ho] at htr
        simp at htr
        rw [htr]
  refine ⟨hmain, ?_⟩
  intro hall
  rw [hmain]
  unfold pickSpec
  have hanch : (List.range 81).filter (fun i => 0 < peerSumSpec g s i) = [] := by
    rw [List.filter_eq_nil]
    intro i hi
    have hi81 := List.mem_range.mp hi
    have hzero : peerSumSpec g s i = 0 := by
      unfold peerSumSpec
      have hfe : (ibsMembers (peersAt g i true)).filter
          (fun j => 2 ≤ vbsLen (getCell s j)) = [] := by
        rw [List.filter_eq_nil]
        intro j hj
        have hj81 : j < 81 :=
          List.mem_range.mp (List.mem_filter.mp hj).1
        have := hall j hj81
        simp
        omega
      rw [hfe]
      rfl
    simp [hzero]
  rw [hanch]
  rfl

/-- C8 witness: on the open board every peer set sums to 189 and the
fork point is cell 0; on the solved board there is no fork point. -/
theorem claim8_witness :
    pickIndexToForkFrom sudokuGroups emptyBoard = pickSpec sudokuGroups emptyBoard ∧
    pickIndexToForkFrom sudokuGroups solvedBoard = none :=
  ⟨(claim8 sudokuGroups emptyBoard).1,
    (claim8 sudokuGroups solvedBoard).2 (by decide)⟩

/-! ## C5: Naked Twins contradiction detection -/

theorem ibsContains_zero (i : Nat) : ibsContains 0 i = false := by
  unfold ibsContains
  simp

theorem ibsContains_insert_ne {i j : Nat} (h : j ≠ i) (b : Nat) :
    ibsContains (ibsInsert b i) j = ibsContains b j := by
  rw [ibsContains_eq_testBit, ibsContains_eq_testBit]
  unfold ibsInsert
  rw [Nat.one_shiftLeft, Nat.testBit_lor, Nat.testBit_land, Nat.testBit_two_pow]
  simp [Ne.symm h]

theorem ntScan_mem_possible {g : CellGroups} {t : CellGroupType} {s : GameState}
    (W : CellGroup) (u v o : Nat)
    (hWg : W ∈ g.groups) (hWt : W.groupType = t)
    (hWu : ibsContains W.indexes u = true)
    (hWv : ibsContains W.indexes v = true) (hv81 : v < 81)
    (hov : ibsContains o v = false)
    (hlv : vbsLen (getCell s v) = 2)
    (hev : getCell s v = getCell s u) :
    v ∈ ((groupsAtIndex g u).filter (fun X => X.groupType == t)).flatMap
      (fun X => (ibsMembers X.indexes).filter
        (fun j => !(ibsContains o j) && vbsLen (getCell s j) == 2 &&
          getCell s j == getCell s u)) := by
  have hlu : vbsLen (getCell s u) = 2 := hev ▸ hlv
  refine List.mem_flatMap.mpr ⟨W, ?_, ?_⟩
  · refine List.mem_filter.mpr ⟨?_, by simp [hWt]⟩
    unfold groupsAtIndex
    exact List.mem_filter.mpr ⟨hWg, hWu⟩
  · refine List.mem_filter.mpr ⟨?_, by simp [hov, hev, hlu]⟩
    unfold ibsMembers
    exact List.mem_filter.mpr ⟨List.mem_range.mpr hv81, hWv⟩

theorem ntScan_possible_sub {g : CellGroups} {t : CellGroupType} {s : GameState}
    {u o x : Nat}
    (hx : x ∈ ((groupsAtIndex g u).filter (fun X => X.groupType == t)).flatMap
      (fun X => (ibsMembers X.indexes).filter
        (fun j => !(ibsContains o j) && vbsLen (getCell s j) == 2 &&
          getCell s j == getCell s u))) :
    ∃ W, W ∈ g.groups ∧ W.groupType = t ∧
      ibsContains W.indexes u = true ∧ ibsContains W.indexes x = true ∧
      x < 81 ∧ getCell s x = getCell s u := by
  obtain ⟨W, hWmem, hxW⟩ := List.mem_flatMap.mp hx
  obtain ⟨hW1, hWt⟩ := List.mem_filter.mp hWmem
  unfold groupsAtIndex at hW1
  obtain ⟨hWg, hWu⟩ := List.mem_filter.mp hW1
  obtain ⟨hx1, hxp⟩ := List.mem_filter.mp hxW
  unfold ibsMembers at hx1
  obtain ⟨hxr, hxc⟩ := List.mem_filter.mp hx1
  have hWt2 : W.groupType = t := by simpa using hWt
  refine ⟨W, hWg, hWt2, hWu, hxc, List.mem_range.mp hxr, ?_⟩
  simp only [Bool.and_eq_true, beq_iff_eq] at hxp
  tauto

theorem ntScan_singleton_all_eq {g : CellGroups} {t : CellGroupType}
    {s : GameState} {u o j : Nat}
    (hp : ((groupsAtIndex g u).filter (fun X => X.groupType == t)).flatMap
      (fun X => (ibsMembers X.indexes).filter
        (fun i => !(ibsContains o i) && vbsLen (getCell s i) == 2 &&
          getCell s i == getCell s u)) = [j]) :
    (∃ W, W ∈ g.groups ∧ W.groupType = t ∧ ibsContains W.indexes u = true ∧
      ibsContains W.indexes j = true ∧ j < 81 ∧ getCell s j = getCell s u) ∧
    (∀ W v, W ∈ g.groups → W.groupType = t → ibsContains W.indexes u = true →
      ibsContains W.indexes v = true → v < 81 → ibsContains o v = false →
      vbsLen (getCell s v) = 2 → getCell s v = getCell s u → v = j) := by
  constructor
  · exact ntScan_possible_sub (by rw [hp]; exact List.mem_singleton_self j)
  · intro W v hWg hWt hWu hWv hv81 hov hlv hev
    have hm := ntScan_mem_possible W u v o hWg hWt hWu hWv hv81 hov hlv hev
    rw [hp] at hm
    simpa using hm

theorem ntScan_head_error {g : CellGroups} {t : CellGroupType} {s : GameState}
    (G : CellGroup) (u v w : Nat) (rest : List Nat) (obs : Nat)
    (pairs : List TwinPair)
    (hG : G ∈ g.groups) (ht : G.groupType = t)
    (hGu : ibsContains G.indexes u = true)
    (hGv : ibsContains G.indexes v = true)
    (hGw : ibsContains G.indexes w = true)
    (hvu : v ≠ u) (hwu : w ≠ u) (hvw : v ≠ w)
    (hv81 : v < 81) (hw81 : w < 81)
    (hou : ibsContains obs u = false)
    (hov : ibsContains obs v = false)
    (how : ibsContains obs w = false)
    (hlenu : vbsLen (getCell s u) = 2)
    (heqv : getCell s v = getCell s u)
    (heqw : getCell s w = getCell s u) :
    ntScan g t s (u :: rest) obs pairs = .error () := by
  have hov' : ibsContains (ibsInsert obs u) v = false := by
    rw [ibsContains_insert_ne hvu]
    exact hov
  have how' : ibsContains (ibsInsert obs u) w = false := by
    rw [ibsContains_insert_ne hwu]
    exact how
  have hlv : vbsLen (getCell s v) = 2 := by rw [heqv]; exact hlenu
  have hlw : vbsLen (getCell s w) = 2 := by rw [heqw]; exact hlenu
  have hvp := ntScan_mem_possible G u v (ibsInsert obs u) hG ht hGu hGv hv81 hov' hlv heqv
  have hwp := ntScan_mem_possible G u w (ibsInsert obs u) hG ht hGu hGw hw81 how' hlw heqw
  simp only [ntScan]
  split
  · next hct => exact absurd hct (by simp [hou])
  · split
    · split
      · next hp =>
        rw [hp] at hvp
        exact absurd hvp (List.not_mem_nil v)
      · next j hp =>
        rw [hp] at hvp hwp
        have h1 : v = j := by simpa using hvp
        have h2 : w = j := by simpa using hwp
        exact absurd (h1.trans h2.symm) hvw
      · rfl
    · next hlc => exact absurd (by rw [hlenu]; rfl) hlc

theorem ntScan_trio_error {g : CellGroups} {t : CellGroupType} {s : GameState}
    (G : CellGroup) (a b c : Nat)
    (hdisj : ∀ W1 ∈ g.groups, ∀ W2 ∈ g.groups, W1.groupType = t →
      W2.groupType = t → ∀ i, i < 81 → ibsContains W1.indexes i = true →
      ibsContains W2.indexes i = true → W1 = W2)
    (hG : G ∈ g.groups) (ht : G.groupType = t)
    (hab : a ≠ b) (hac : a ≠ c) (hbc : b ≠ c)
    (ha81 : a < 81) (hb81 : b < 81) (hc81 : c < 81)
    (hGa : ibsContains G.indexes a = true)
    (hGb : ibsContains G.indexes b = true)
    (hGc : ibsContains G.indexes c = true)
    (hlen : vbsLen (getCell s a) = 2)
    (heqb : getCell s b = getCell s a) (heqc : getCell s c = getCell s a) :
    ∀ (l : List Nat) (obs : Nat) (pairs : List TwinPair),
      a ∈ l → b ∈ l → c ∈ l →
      ibsContains obs a = false → ibsContains obs b = false →
      ibsContains obs c = false →
      ntScan g t s l obs pairs = .error () := by
  intro l
  induction l with
  | nil =>
    intro obs pairs hma _ _ _ _ _
    exact absurd hma (List.not_mem_nil a)
  | cons u rest ih =>
    intro obs pairs hma hmb hmc hoa hob hoc
    by_cases hua : u = a
    · subst hua
      exact ntScan_head_error G u b c rest obs pairs hG ht hGa hGb hGc
        (Ne.symm hab) (Ne.symm hac) hbc hb81 hc81 hoa hob hoc hlen heqb heqc
    · by_cases hub : u = b
      · subst hub
        exact ntScan_head_error G u a c rest obs pairs hG ht hGb hGa hGc
          hab (Ne.symm hbc) hac ha81 hc81 hob hoa hoc
          (by rw [heqb]; exact hlen) heqb.symm (heqc.trans heqb.symm)
      · by_cases huc : u = c
        · subst huc
          exact ntScan_head_error G u a b rest obs pairs hG ht hGc hGa hGb
            hac hbc hab ha81 hb81 hoc hoa hob
            (by rw [heqc]; exact hlen) heqc.symm (heqb.trans heqc.symm)
        · have hma' : a ∈ rest := by
            rcases List.mem_cons.mp hma with h | h
            · exact absurd h.symm hua
            · exact h
          have hmb' : b ∈ rest := by
            rcases List.mem_cons.mp hmb with h | h
            · exact absurd h.symm hub
            · exact h
          have hmc' : c ∈ rest := by
            rcases List.mem_cons.mp hmc with h | h
            · exact absurd h.symm huc
            · exact h
          have hne_au : a ≠ u := fun h => hua h.symm
          have hne_bu : b ≠ u := fun h => hub h.symm
          have hne_cu : c ≠ u := fun h => huc h.symm
          have hoa' : ibsContains (ibsInsert obs u) a = false := by
            rw [ibsContains_insert_ne hne_au]
            exact hoa
          have hob' : ibsContains (ibsInsert obs u) b = false := by
            rw [ibsContains_insert_ne hne_bu]
            exact hob
          have hoc' : ibsContains (ibsInsert obs u) c = false := by
            rw [ibsContains_insert_ne hne_cu]
            exact hoc
          simp only [ntScan]
          split
          · exact ih obs pairs hma' hmb' hmc' hoa hob hoc
          · split
            · split
              · exact ih _ _ hma' hmb' hmc' hoa' hob' hoc'
              · next j hp =>
                by_cases hj : j = a ∨ j = b ∨ j = c
                · exfalso
                  obtain ⟨⟨W, hWg, hWt, hWu, hWj, hj81, hjeq⟩, hall⟩ :=
                    ntScan_singleton_all_eq hp
                  have hkey : ibsContains G.indexes u = true ∧
                      getCell s a = getCell s u := by
                    rcases hj with hja | hjb | hjc
                    · subst hja
                      have hWG : W = G := hdisj W hWg G hG hWt ht j hj81 hWj hGa
                      rw [hWG] at hWu
                      exact ⟨hWu, hjeq⟩
                    · subst hjb
                      have hWG : W = G := hdisj W hWg G hG hWt ht j hj81 hWj hGb
                      rw [hWG] at hWu
                      exact ⟨hWu, heqb.symm.trans hjeq⟩
                    · subst hjc
                      have hWG : W = G := hdisj W hWg G hG hWt ht j hj81 hWj hGc
                      rw [hWG] at hWu
                      exact ⟨hWu, heqc.symm.trans hjeq⟩
                  obtain ⟨hGu, hau⟩ := hkey
                  have h1 : a = j := hall G a hG ht hGu hGa ha81 hoa' hlen hau
                  have h2 : b = j :=
                    hall G b hG ht hGu hGb hb81 hob'
                      (by rw [heqb]; exact hlen) (heqb.trans hau)
                  exact hab (h1.trans h2.symm)
                · have hja : j ≠ a := fun h => hj (Or.inl h)
                  have hjb : j ≠ b := fun h => hj (Or.inr (Or.inl h))
                  have hjc : j ≠ c := fun h => hj (Or.inr (Or.inr h))
                  have hoa2 : ibsContains
                      (ibsInsert (ibsInsert (ibsInsert obs u) u) j) a = false := by
                    rw [ibsContains_insert_ne (Ne.symm hja),
                      ibsContains_insert_ne hne_au, ibsContains_insert_ne hne_au]
                    exact hoa
                  have hob2 : ibsContains
                      (ibsInsert (ibsInsert (ibsInsert obs u) u) j) b = false := by
                    rw [ibsContains_insert_ne (Ne.symm hjb),
                      ibsContains_insert_ne hne_bu, ibsContains_insert_ne hne_bu]
                    exact hob
                  have hoc2 : ibsContains
                      (ibsInsert (ibsInsert (ibsInsert obs u) u) j) c = false := by
                    rw [ibsContains_insert_ne (Ne.symm hjc),
                      ibsContains_insert_ne hne_cu, ibsContains_insert_ne hne_cu]
                    exact hoc
                  exact ih _ _ hma' hmb' hmc' hoa2 hob2 hoc2
              · rfl
            · exact ih _ _ hma' hmb' hmc' hoa' hob' hoc'

/-- C5 counterexample: with two overlapping custom groups, cells 1, 2, 3
of the group `{1, .., 9}` all hold the identical two-value candidate set
`{1, 2}`, yet the Naked Twins step on the custom type does not return
`InvalidGameState`: the scan pairs cell 1 away with cell 0 through the
other overlapping group before the three-way contradiction is seen. -/
theorem claim5_counterexample :
    (∃ W ∈ c5xGroups.groups, W.groupType = .custom ∧
      ibsContains W.indexes 1 = true ∧ ibsContains W.indexes 2 = true ∧
      ibsContains W.indexes 3 = true) ∧
    vbsLen (getCell c5xBoard 1) = 2 ∧
    getCell c5xBoard 2 = getCell c5xBoard 1 ∧
    getCell c5xBoard 3 = getCell c5xBoard 1 ∧
    playNakedTwins c5xGroups .custom c5xBoard ≠ .error () := by
  refine ⟨⟨⟨some 2, .custom, ibsOfList [1, 2, 3, 4, 5, 6, 7, 8, 9]⟩,
    by decide, by decide, by decide, by decide, by decide⟩,
    by decide, by decide, by decide, by decide⟩

/-- C5 (amended): when the groups of the scanned type are pairwise
disjoint — as the standard rows, columns and blocks are — a board in
which three distinct cells of one group of that type hold an identical
two-value candidate set makes `play_naked_twins_in_group` return
`InvalidGameState`; with overlapping same-type groups the contradiction
can be masked by an interfering twin pair in an overlapping group. -/
theorem claim5 (g : CellGroups) (t : CellGroupType) (s : GameState)
    (G : CellGroup) (a b c : Nat)
    (hdisj : ∀ W1 ∈ g.groups, ∀ W2 ∈ g.groups, W1.groupType = t →
      W2.groupType = t → ∀ i, i < 81 → ibsContains W1.indexes i = true →
      ibsContains W2.indexes i = true → W1 = W2)
    (hG : G ∈ g.groups) (ht : G.groupType = t)
    (hab : a ≠ b) (hac : a ≠ c) (hbc : b ≠ c)
    (ha81 : a < 81) (hb81 : b < 81) (hc81 : c < 81)
    (hGa : ibsContains G.indexes a = true)
    (hGb : ibsContains G.indexes b = true)
    (hGc : ibsContains G.indexes c = true)
    (hlen : vbsLen (getCell s a) = 2)
    (heqb : getCell s b = getCell s a) (heqc : getCell s c = getCell s a) :
    playNakedTwins g t s = .error () := by
  have h := ntScan_trio_error G a b c hdisj hG ht hab hac hbc ha81 hb81 hc81
    hGa hGb hGc hlen heqb heqc (List.range 81) 0 []
    (List.mem_range.mpr ha81) (List.mem_range.mpr hb81) (List.mem_range.mpr hc81)
    (ibsContains_zero a) (ibsContains_zero b) (ibsContains_zero c)
  unfold playNakedTwins
  rw [h]

/-- C5 witness: cells 0, 9, 18 of standard column 0 of `c2Board` share
the candidate pair `{1, 2}`, and the standard-column groups are pairwise
disjoint, so Naked Twins on standard columns reports the
contradiction. -/
theorem claim5_witness :
    playNakedTwins sudokuGroups .standardColumn c2Board = .error () :=
  claim5 sudokuGroups .standardColumn c2Board (colGroup 0) 0 9 18
    (by decide) (by decide) (by decide) (by decide) (by decide) (by decide)
    (by decide) (by decide) (by decide) (by decide) (by decide) (by decide)
    (by decide) (by decide) (by decide)

end Sudoku2
